import Mathlib

/-!
Master/slave credential broker: token issuer and one-time-code handshake.

A shallow embedding of `internal/models`, `internal/repository` and
`internal/service`, followed by the properties of the credential lifecycle
that are checked against it.

Modelling conventions

* `uuid.UUID` is a natural number, `uuid.Nil` is `0`.
* `time.Time` is an integer count of nanoseconds, `time.Duration` likewise.
  `a.After(b)` is `b < a`, `a.Before(b)` is `a < b`, `a.Add(d)` is `a + d`.
* The PostgreSQL database behind `*gorm.DB` is a record of row lists.  A query
  may also fail for reasons outside the data (`DB.faults`), which is how
  `result.Error` values other than "record not found" arise.
* A service call is taken to run at one instant, the argument `now`: every
  `time.Now()` inside it reads that instant.
* A compact JWS string is kept in decoded form (`TokenString`); the keyed hash
  of the signing library is the argument `hmac`.
-/

namespace MasterSlave

/-! ## internal/models -/

abbrev UUID := Nat

/-- The zero UUID, `uuid.Nil`. -/
def uuidNil : UUID := 0

abbrev Time := Int

abbrev Duration := Int

/-- Row of table `users`; `DeletedAt` is the soft-delete column. -/
structure User where
  ID : UUID
  Email : String
  PasswordHash : String
  CreatedAt : Time
  UpdatedAt : Time
  DeletedAt : Option Time
deriving DecidableEq, Repr

/-- Row of table `app_registry`. -/
structure App where
  ID : UUID
  AppName : String
  PackageID : String
  DeepLinkScheme : String
  CreatedAt : Time
deriving DecidableEq, Repr

/-- Row of table `user_app_permissions`. -/
structure UserAppPermission where
  ID : UUID
  UserID : UUID
  AppID : UUID
deriving DecidableEq, Repr

/-- Row of table `one_time_codes`. -/
structure OneTimeCode where
  ID : UUID
  UserID : UUID
  AppID : UUID
  Code : String
  ExpiresAt : Time
  Claimed : Bool
deriving DecidableEq, Repr

/-! ## internal/config -/

structure Config where
  DatabaseURL : String
  JWTSecret : String
  JWTAccessExpiry : Duration
  JWTRefreshExpiry : Duration
  OTCExpiry : Duration
  ServerPort : String
deriving DecidableEq, Repr

/-! ## The database handle -/

/-- Errors a `*gorm.DB` call can leave in `result.Error`. -/
inductive DBError where
  | ErrRecordNotFound
  | ErrMissingWhereClause
  | ErrDuplicatedKey
  | ErrForeignKeyViolated
  | ErrUnavailable
deriving DecidableEq, Repr

/-- The repository methods, one per query the services issue. -/
inductive StoreOp where
  | UserFindByEmail
  | UserFindByID
  | AppGetPermittedApps
  | AppFindByID
  | AppFindByPackageID
  | AppHasPermission
  | OTCCreate
  | OTCFindByCode
  | OTCMarkClaimed
  | OTCCleanExpired
deriving DecidableEq, Repr

/-- The four tables, and the queries that currently fail regardless of the
data (lost connection, timeout, ...). -/
structure DB where
  users : List User
  apps : List App
  perms : List UserAppPermission
  codes : List OneTimeCode
  faults : List (StoreOp × DBError)
deriving DecidableEq, Repr

/-- The failure, if any, that query `op` meets on `db`. -/
def DB.fault (db : DB) (op : StoreOp) : Option DBError :=
  match db.faults.find? (fun f => decide (f.1 = op)) with
  | some f => some f.2
  | none => none

/-- Every query reaches the data. -/
def DB.healthy (db : DB) : Prop := db.faults = []

instance (db : DB) : Decidable db.healthy := by
  unfold DB.healthy; infer_instance

/-- Row with the least primary key; on equal keys the earlier row. This is
`ORDER BY id LIMIT 1`, which `First` appends to its query. -/
def firstByID {α : Type} (key : α → UUID) : List α → Option α
  | [] => none
  | r :: rs =>
    match firstByID key rs with
    | none => some r
    | some m => if key m < key r then some m else some r

/-- Query `db.Where(cond).First(&row)`. -/
def gormFirst {α : Type} (flt : Option DBError) (key : α → UUID) (rows : List α)
    (cond : α → Bool) : Except DBError α :=
  match flt with
  | some e => .error e
  | none =>
    match firstByID key (rows.filter cond) with
    | none => .error .ErrRecordNotFound
    | some r => .ok r

/-! ## internal/repository -/

/-- Rows of `users` a query sees: gorm adds `deleted_at IS NULL` for a model
with a `gorm.DeletedAt` field. -/
def liveUser (u : User) : Bool := u.DeletedAt.isNone

def UserRepository.FindByEmail (db : DB) (email : String) : Except DBError User :=
  gormFirst (db.fault .UserFindByEmail) User.ID db.users
    (fun u => decide (u.Email = email) && liveUser u)

def UserRepository.FindByID (db : DB) (id : UUID) : Except DBError User :=
  gormFirst (db.fault .UserFindByID) User.ID db.users
    (fun u => decide (u.ID = id) && liveUser u)

def AppRepository.GetPermittedApps (db : DB) (userID : UUID) : Except DBError (List App) :=
  match db.fault .AppGetPermittedApps with
  | some e => .error e
  | none =>
    .ok (db.apps.flatMap (fun a =>
      (db.perms.filter (fun p => decide (p.AppID = a.ID) && decide (p.UserID = userID))).map
        (fun _ => a)))

def AppRepository.FindByID (db : DB) (id : UUID) : Except DBError App :=
  gormFirst (db.fault .AppFindByID) App.ID db.apps (fun a => decide (a.ID = id))

def AppRepository.FindByPackageID (db : DB) (packageID : String) : Except DBError App :=
  gormFirst (db.fault .AppFindByPackageID) App.ID db.apps
    (fun a => decide (a.PackageID = packageID))

def AppRepository.HasPermission (db : DB) (userID appID : UUID) : Except DBError Bool :=
  match db.fault .AppHasPermission with
  | some e => .error e
  | none =>
    let count :=
      (db.perms.filter (fun p => decide (p.UserID = userID) && decide (p.AppID = appID))).length
    .ok (decide (count > 0))

/-- Insert into `one_time_codes`. A zero `ID` is left to the column default
`gen_random_uuid()`, whose value here is `genID`. The primary key and the
unique index on `code` reject a duplicate; the two foreign keys need the
referenced rows. -/
def OTCRepository.Create (db : DB) (genID : UUID) (otc : OneTimeCode) :
    Except DBError Unit × DB :=
  match db.fault .OTCCreate with
  | some e => (.error e, db)
  | none =>
    let row : OneTimeCode := { otc with ID := if otc.ID = uuidNil then genID else otc.ID }
    if db.codes.any (fun r => decide (r.ID = row.ID) || decide (r.Code = row.Code)) then
      (.error .ErrDuplicatedKey, db)
    else if !(db.users.any (fun u => decide (u.ID = row.UserID))) then
      (.error .ErrForeignKeyViolated, db)
    else if !(db.apps.any (fun a => decide (a.ID = row.AppID))) then
      (.error .ErrForeignKeyViolated, db)
    else
      (.ok (), { db with codes := db.codes ++ [row] })

def OTCRepository.FindByCode (db : DB) (code : String) : Except DBError OneTimeCode :=
  gormFirst (db.fault .OTCFindByCode) OneTimeCode.ID db.codes (fun r => decide (r.Code = code))

/-- Query `db.Model(otc).Update("claimed", true)`: the only condition is the
primary key of `otc`; without one gorm refuses the update. No row matching is
not an error. -/
def OTCRepository.MarkClaimed (db : DB) (otc : OneTimeCode) : Except DBError Unit × DB :=
  match db.fault .OTCMarkClaimed with
  | some e => (.error e, db)
  | none =>
    if otc.ID = uuidNil then (.error .ErrMissingWhereClause, db)
    else
      (.ok (), { db with codes := db.codes.map (fun r =>
        if r.ID = otc.ID then { r with Claimed := true } else r) })

/-- Query `db.Where("expires_at < ? OR claimed = ?", now, true).Delete(...)`. -/
def OTCRepository.CleanExpired (db : DB) (now : Time) : Except DBError Unit × DB :=
  match db.fault .OTCCleanExpired with
  | some e => (.error e, db)
  | none =>
    (.ok (), { db with codes := db.codes.filter (fun r =>
      !(decide (r.ExpiresAt < now) || r.Claimed)) })

/-! ## The token artifact (github.com/golang-jwt/jwt/v5) -/

/-- The `alg` header of a token. The three HS methods are the values of type
`*jwt.SigningMethodHMAC`; every other registered method (`none`, RS256, ...)
is `other`. -/
inductive SigningMethod where
  | HS256
  | HS384
  | HS512
  | other (alg : String)
deriving DecidableEq, Repr

def SigningMethod.isHMAC : SigningMethod → Bool
  | .HS256 => true
  | .HS384 => true
  | .HS512 => true
  | .other _ => false

/-- Go type `JWTClaims`, the embedded `jwt.RegisteredClaims` laid out flat
(the fields nothing here reads are left out: audience, id).
`Type_` is the Go field `Type`. -/
structure JWTClaims where
  UserID : UUID
  Email : String
  Type_ : String
  Subject : String
  IssuedAt : Option Time
  ExpiresAt : Option Time
  NotBefore : Option Time
  Issuer : String
deriving DecidableEq, Repr

/-- A token string as `jwt.ParseWithClaims` sees it: either three segments
that decode to a header with a registered method, a claims object and a
signature, or anything else. -/
inductive TokenString where
  | malformed (raw : String)
  | jws (method : SigningMethod) (claims : JWTClaims) (signature : Nat)
deriving DecidableEq, Repr

/-- The keyed hash of the signing library: key, then the signing input
(encoded header and claims), to the signature. -/
abbrev HMAC := String → SigningMethod × JWTClaims → Nat

/-- Function `jwt.NewNumericDate`: the instant truncated to `jwt.TimePrecision`, one
second. -/
def NewNumericDate (t : Time) : Time := t - t % 1000000000

/-- Call `jwt.NewWithClaims(method, claims).SignedString(key)` with a `[]byte`
key, for which an HS method does not fail. -/
def SignedString (hmac : HMAC) (method : SigningMethod) (claims : JWTClaims) (key : String) :
    TokenString :=
  .jws method claims (hmac key (method, claims))

/-- The default `jwt.Validator` on registered claims: an `exp` that is
present must lie after `now`, an `nbf` that is present must not; `iat` is not
checked. -/
def validateClaims (now : Time) (claims : JWTClaims) : Bool :=
  (match claims.ExpiresAt with
    | none => true
    | some exp => decide (now < exp)) &&
  (match claims.NotBefore with
    | none => true
    | some nbf => !decide (now < nbf))

/-! ## internal/service: errors and results -/

/-- The error values of the two services; `store` carries an error of the
database handle that a service returns as it is. -/
inductive Error where
  | ErrInvalidCredentials
  | ErrUserNotFound
  | ErrInvalidToken
  | ErrInvalidTokenType
  | ErrCodeExpired
  | ErrAppNotFound
  | ErrAppMismatch
  | ErrNoPermission
  | ErrCodeGeneration
  | store (e : DBError)
deriving DecidableEq, Repr

structure TokenPair where
  AccessToken : TokenString
  RefreshToken : TokenString
deriving DecidableEq, Repr

structure UserProfile where
  ID : UUID
  Email : String
  Apps : List UUID
deriving DecidableEq, Repr

structure OTCResult where
  Code : String
  ExpiresAt : Time
deriving DecidableEq, Repr

/-- Method `uuid.UUID.String()`. -/
def uuidString (id : UUID) : String := toString id

/-! ## internal/service/auth_service.go -/

def AuthService.generateTokenPair (hmac : HMAC) (cfg : Config) (now : Time) (user : User) :
    Except Error TokenPair :=
  let accessClaims : JWTClaims :=
    { UserID := user.ID
      Email := user.Email
      Type_ := "access"
      Subject := uuidString user.ID
      IssuedAt := some (NewNumericDate now)
      ExpiresAt := some (NewNumericDate (now + cfg.JWTAccessExpiry))
      NotBefore := none
      Issuer := "master-slave-server" }
  let accessStr := SignedString hmac .HS256 accessClaims cfg.JWTSecret
  let refreshClaims : JWTClaims :=
    { UserID := user.ID
      Email := user.Email
      Type_ := "refresh"
      Subject := uuidString user.ID
      IssuedAt := some (NewNumericDate now)
      ExpiresAt := some (NewNumericDate (now + cfg.JWTRefreshExpiry))
      NotBefore := none
      Issuer := "master-slave-server" }
  let refreshStr := SignedString hmac .HS256 refreshClaims cfg.JWTSecret
  .ok { AccessToken := accessStr, RefreshToken := refreshStr }

/-- Go `parseToken`: `jwt.ParseWithClaims` with a key function that rejects
every method that is not HMAC. The library checks, in this order, the
structure, the key function, the signature and the registered claims; each
failure ends as `ErrInvalidToken`. -/
def AuthService.parseToken (hmac : HMAC) (cfg : Config) (now : Time) (tokenString : TokenString) :
    Except Error JWTClaims :=
  match tokenString with
  | .malformed _ => .error .ErrInvalidToken
  | .jws method claims signature =>
    if !method.isHMAC then .error .ErrInvalidToken
    else if signature ≠ hmac cfg.JWTSecret (method, claims) then .error .ErrInvalidToken
    else if !validateClaims now claims then .error .ErrInvalidToken
    else .ok claims

def AuthService.ParseAccessToken (hmac : HMAC) (cfg : Config) (now : Time)
    (tokenString : TokenString) : Except Error JWTClaims :=
  match AuthService.parseToken hmac cfg now tokenString with
  | .error err => .error err
  | .ok claims =>
    if claims.Type_ ≠ "access" then .error .ErrInvalidTokenType
    else .ok claims

/-- Go `Login`; `bcrypt hash password` is whether
`bcrypt.CompareHashAndPassword` returns no error. -/
def AuthService.Login (bcrypt : String → String → Bool) (hmac : HMAC) (cfg : Config) (db : DB)
    (now : Time) (email password : String) : Except Error TokenPair :=
  match UserRepository.FindByEmail db email with
  | .error _ => .error .ErrInvalidCredentials
  | .ok user =>
    if !bcrypt user.PasswordHash password then .error .ErrInvalidCredentials
    else AuthService.generateTokenPair hmac cfg now user

def AuthService.VerifyToken (hmac : HMAC) (cfg : Config) (db : DB) (now : Time)
    (tokenString : TokenString) : Except Error UserProfile :=
  match AuthService.parseToken hmac cfg now tokenString with
  | .error err => .error err
  | .ok claims =>
    if claims.Type_ ≠ "access" then .error .ErrInvalidTokenType
    else
      match UserRepository.FindByID db claims.UserID with
      | .error _ => .error .ErrUserNotFound
      | .ok user =>
        match AppRepository.GetPermittedApps db user.ID with
        | .error err => .error (.store err)
        | .ok apps => .ok { ID := user.ID, Email := user.Email, Apps := apps.map App.ID }

def AuthService.RefreshToken (hmac : HMAC) (cfg : Config) (db : DB) (now : Time)
    (refreshToken : TokenString) : Except Error TokenPair :=
  match AuthService.parseToken hmac cfg now refreshToken with
  | .error err => .error err
  | .ok claims =>
    if claims.Type_ ≠ "refresh" then .error .ErrInvalidTokenType
    else
      match UserRepository.FindByID db claims.UserID with
      | .error _ => .error .ErrUserNotFound
      | .ok user => AuthService.generateTokenPair hmac cfg now user

def AuthService.GenerateTokenPairForUser (hmac : HMAC) (cfg : Config) (db : DB) (now : Time)
    (userID : UUID) : Except Error TokenPair :=
  match UserRepository.FindByID db userID with
  | .error _ => .error .ErrUserNotFound
  | .ok user => AuthService.generateTokenPair hmac cfg now user

/-! ## internal/service/otc_service.go -/

/-- One lower-case hexadecimal digit. -/
def hexDigit (n : Nat) : Char :=
  match n % 16 with
  | 0 => '0' | 1 => '1' | 2 => '2' | 3 => '3' | 4 => '4' | 5 => '5' | 6 => '6' | 7 => '7'
  | 8 => '8' | 9 => '9' | 10 => 'a' | 11 => 'b' | 12 => 'c' | 13 => 'd' | 14 => 'e'
  | _ => 'f'

/-- Function `hex.EncodeToString`: two digits for each byte, high nibble first. -/
def hexEncodeToString (bytes : List Nat) : String :=
  String.mk (bytes.flatMap (fun b => [hexDigit (b % 256 / 16), hexDigit (b % 256)]))

/-- Go `ExchangeCode`. `randRead` is the outcome of `rand.Read` on the
six-byte buffer (`none`: the source failed), `genID` the primary key the
database draws for the new row. -/
def OTCService.ExchangeCode (cfg : Config) (db : DB) (now : Time) (randRead : Option (List Nat))
    (genID : UUID) (userID appID : UUID) : Except Error OTCResult × DB :=
  match AppRepository.FindByID db appID with
  | .error _ => (.error .ErrAppNotFound, db)
  | .ok _ =>
    match AppRepository.HasPermission db userID appID with
    | .error err => (.error (.store err), db)
    | .ok hasPermission =>
      if !hasPermission then (.error .ErrNoPermission, db)
      else
        match randRead with
        | none => (.error .ErrCodeGeneration, db)
        | some codeBytes =>
          let code := hexEncodeToString codeBytes
          let expiresAt := now + cfg.OTCExpiry
          let otc : OneTimeCode :=
            { ID := uuidNil
              UserID := userID
              AppID := appID
              Code := code
              ExpiresAt := expiresAt
              Claimed := false }
          match OTCRepository.Create db genID otc with
          | (.error err, db1) => (.error (.store err), db1)
          | (.ok _, db1) => (.ok { Code := code, ExpiresAt := expiresAt }, db1)

/-- Go `ClaimToken`. -/
def OTCService.ClaimToken (hmac : HMAC) (cfg : Config) (db : DB) (now : Time)
    (code packageID : String) : Except Error TokenPair × DB :=
  match OTCRepository.FindByCode db code with
  | .error _ => (.error .ErrCodeExpired, db)
  | .ok otc =>
    if otc.Claimed || decide (otc.ExpiresAt < now) then (.error .ErrCodeExpired, db)
    else
      match AppRepository.FindByPackageID db packageID with
      | .error _ => (.error .ErrAppNotFound, db)
      | .ok app =>
        if app.ID ≠ otc.AppID then (.error .ErrAppMismatch, db)
        else
          match OTCRepository.MarkClaimed db otc with
          | (.error err, db1) => (.error (.store err), db1)
          | (.ok _, db1) =>
            (AuthService.GenerateTokenPairForUser hmac cfg db1 now otc.UserID, db1)

def OTCService.CleanExpiredCodes (db : DB) (now : Time) : Except Error Unit × DB :=
  match OTCRepository.CleanExpired db now with
  | (.error err, db1) => (.error (.store err), db1)
  | (.ok _, db1) => (.ok (), db1)

/-! ## Concurrent callers of `ClaimToken`

Each request runs `ClaimToken` on its own; the calls share nothing but the
database, so an execution of several calls is an interleaving of their store
calls. `ClaimPC` is the point one call has reached, with the local variable
`otc` it holds from there on. -/

inductive ClaimPC where
  | lookup
  | check (otc : OneTimeCode)
  | resolve (otc : OneTimeCode)
  | mark (otc : OneTimeCode)
  | mint (otc : OneTimeCode)
  | done (result : Except Error TokenPair)

structure ClaimCall where
  code : String
  packageID : String
  pc : ClaimPC

/-- A call that has not started. -/
def ClaimCall.start (code packageID : String) : ClaimCall :=
  { code := code, packageID := packageID, pc := .lookup }

/-- The next store call (or the test of the fetched copy) of one call. -/
def ClaimCall.step (hmac : HMAC) (cfg : Config) (now : Time) (db : DB) (c : ClaimCall) :
    DB × ClaimCall :=
  match c.pc with
  | .lookup =>
    match OTCRepository.FindByCode db c.code with
    | .error _ => (db, { c with pc := .done (.error .ErrCodeExpired) })
    | .ok otc => (db, { c with pc := .check otc })
  | .check otc =>
    if otc.Claimed || decide (otc.ExpiresAt < now) then
      (db, { c with pc := .done (.error .ErrCodeExpired) })
    else (db, { c with pc := .resolve otc })
  | .resolve otc =>
    match AppRepository.FindByPackageID db c.packageID with
    | .error _ => (db, { c with pc := .done (.error .ErrAppNotFound) })
    | .ok app =>
      if app.ID ≠ otc.AppID then (db, { c with pc := .done (.error .ErrAppMismatch) })
      else (db, { c with pc := .mark otc })
  | .mark otc =>
    match OTCRepository.MarkClaimed db otc with
    | (.error err, db1) => (db1, { c with pc := .done (.error (.store err)) })
    | (.ok _, db1) => (db1, { c with pc := .mint otc })
  | .mint otc =>
    (db, { c with pc := .done (AuthService.GenerateTokenPairForUser hmac cfg db now otc.UserID) })
  | .done _ => (db, c)

/-- One call run alone for `n` steps. -/
def ClaimCall.steps (hmac : HMAC) (cfg : Config) (now : Time) : Nat → DB → ClaimCall → DB × ClaimCall
  | 0, db, c => (db, c)
  | n + 1, db, c =>
    let r := ClaimCall.step hmac cfg now db c
    ClaimCall.steps hmac cfg now n r.1 r.2

/-- A schedule names, turn by turn, the call that moves and the clock. -/
def runSchedule (hmac : HMAC) (cfg : Config) : List (Nat × Time) → DB → List ClaimCall →
    DB × List ClaimCall
  | [], db, calls => (db, calls)
  | (i, now) :: rest, db, calls =>
    match calls.get? i with
    | none => runSchedule hmac cfg rest db calls
    | some c =>
      let r := ClaimCall.step hmac cfg now db c
      runSchedule hmac cfg rest r.1 (calls.set i r.2)

/-- What a call has returned, if it has. -/
def ClaimCall.result (c : ClaimCall) : Option (Except Error TokenPair) :=
  match c.pc with
  | .done r => some r
  | _ => none

/-- Whether a call has returned a token pair. -/
def ClaimCall.succeeded (c : ClaimCall) : Bool :=
  match c.pc with
  | .done (.ok _) => true
  | _ => false

/-! ## Histories of the handshake -/

/-- A request to the handshake service, with what the environment supplies
to it (clock, random bytes, fresh key), or a change in which queries fail. -/
inductive Request where
  | exchange (now : Time) (randRead : Option (List Nat)) (genID : UUID) (userID appID : UUID)
  | claim (now : Time) (code packageID : String)
  | sweep (now : Time)
  | setFaults (faults : List (StoreOp × DBError))

/-- The database after a request. -/
def Request.apply (hmac : HMAC) (cfg : Config) (db : DB) : Request → DB
  | .exchange now randRead genID userID appID =>
    (OTCService.ExchangeCode cfg db now randRead genID userID appID).2
  | .claim now code packageID => (OTCService.ClaimToken hmac cfg db now code packageID).2
  | .sweep now => (OTCService.CleanExpiredCodes db now).2
  | .setFaults faults => { db with faults := faults }

/-- The database after a list of requests, served one after the other. -/
def serve (hmac : HMAC) (cfg : Config) (db : DB) (reqs : List Request) : DB :=
  reqs.foldl (Request.apply hmac cfg) db

/-- The code value an exchange request draws, if it draws one. -/
def Request.drawsCode (c : String) : Request → Bool
  | .exchange _ (some codeBytes) _ _ _ => decide (hexEncodeToString codeBytes = c)
  | _ => false

/-- Code value `c` is spent: every stored row that carries it is claimed. -/
def CodeSpent (c : String) (db : DB) : Prop :=
  ∀ r ∈ db.codes, r.Code = c → r.Claimed = true

instance (c : String) (db : DB) : Decidable (CodeSpent c db) := by
  unfold CodeSpent; infer_instance

/-! ## The scenario of the handshake

User U holds a permission for app A (package id `com.a`) and none for app B;
codes live for thirty seconds. -/

def scenarioConfig : Config :=
  { DatabaseURL := "postgres://localhost:5432/master_slave_db"
    JWTSecret := "dev-secret-change-me"
    JWTAccessExpiry := 900000000000
    JWTRefreshExpiry := 604800000000000
    OTCExpiry := 30000000000
    ServerPort := "8080" }

def userU : User :=
  { ID := 1, Email := "u@example.com", PasswordHash := "hash", CreatedAt := 0, UpdatedAt := 0,
    DeletedAt := none }

def appA : App :=
  { ID := 10, AppName := "A", PackageID := "com.a", DeepLinkScheme := "a", CreatedAt := 0 }

def appB : App :=
  { ID := 11, AppName := "B", PackageID := "com.b", DeepLinkScheme := "b", CreatedAt := 0 }

def scenarioDB : DB :=
  { users := [userU]
    apps := [appA, appB]
    perms := [{ ID := 20, UserID := 1, AppID := 10 }]
    codes := []
    faults := [] }

/-- The six random bytes that render as `deadbeef1234`. -/
def scenarioBytes : List Nat := [222, 173, 190, 239, 18, 52]

/-- A stand-in for the keyed hash, enough to run the definitions. -/
def toyHMAC : HMAC := fun key input =>
  key.length + 7 * input.2.UserID + 13 * input.2.Type_.length

/-- The row `ExchangeCode(U, A)` stores at time `0` when the database draws
key `100`. -/
def scenarioCode : OneTimeCode :=
  { ID := 100, UserID := 1, AppID := 10, Code := "deadbeef1234", ExpiresAt := 30000000000,
    Claimed := false }

/-- The scenario after `ExchangeCode(U, A)`. -/
def scenarioPending : DB := { scenarioDB with codes := [scenarioCode] }

/-- The scenario after the code has been claimed. -/
def scenarioClaimed : DB := { scenarioDB with codes := [{ scenarioCode with Claimed := true }] }

/-- The scenario after `ExchangeCode(U, A)`, with user U soft-deleted since. -/
def scenarioOwnerGone : DB :=
  { scenarioPending with users := [{ userU with DeletedAt := some 1 }] }

/-- Claims of a refresh token of user U whose expiry claim is one second. -/
def staleRefreshClaims : JWTClaims :=
  { UserID := 1, Email := "u@example.com", Type_ := "refresh", Subject := "1",
    IssuedAt := some 0, ExpiresAt := some 1000000000, NotBefore := none,
    Issuer := "master-slave-server" }

/-- The scenario after the claimed code has been swept and a second
`ExchangeCode(U, A)`, at twelve seconds, has drawn the same six bytes (the
database drawing key `101`). -/
def scenarioRedrawn : DB :=
  { scenarioDB with codes := [{ scenarioCode with ID := 101, ExpiresAt := 42000000000 }] }

/-! ## Queries -/

theorem firstByID_mem {α : Type} (key : α → UUID) :
    ∀ (l : List α) (r : α), firstByID key l = some r → r ∈ l := by
  intro l
  induction l with
  | nil => intro r h; simp [firstByID] at h
  | cons a rs ih =>
    intro r h
    simp only [firstByID] at h
    cases hrs : firstByID key rs with
    | none =>
      rw [hrs] at h
      simp only [Option.some.injEq] at h
      subst h
      exact List.mem_cons_self _ _
    | some m =>
      rw [hrs] at h
      by_cases hlt : key m < key a
      · simp only [if_pos hlt, Option.some.injEq] at h
        subst h
        exact List.mem_cons_of_mem _ (ih _ hrs)
      · simp only [if_neg hlt, Option.some.injEq] at h
        subst h
        exact List.mem_cons_self _ _

theorem firstByID_eq_none {α : Type} (key : α → UUID) (l : List α) :
    firstByID key l = none ↔ l = [] := by
  cases l with
  | nil => simp [firstByID]
  | cons a rs =>
    simp only [firstByID]
    cases hrs : firstByID key rs with
    | none => simp
    | some m => by_cases hlt : key m < key a <;> simp [hlt]

theorem firstByID_singleton {α : Type} (key : α → UUID) (r : α) :
    firstByID key [r] = some r := by
  simp [firstByID]

/-- A row that `First` returns is a row of the table and meets the condition. -/
theorem gormFirst_ok {α : Type} {flt : Option DBError} {key : α → UUID} {rows : List α}
    {cond : α → Bool} {r : α} (h : gormFirst flt key rows cond = .ok r) :
    flt = none ∧ r ∈ rows ∧ cond r = true := by
  unfold gormFirst at h
  cases flt with
  | some e => simp at h
  | none =>
    simp only at h
    cases hf : firstByID key (rows.filter cond) with
    | none => rw [hf] at h; simp at h
    | some m =>
      rw [hf] at h
      simp only [Except.ok.injEq] at h
      subst h
      have hm := firstByID_mem key _ _ hf
      rw [List.mem_filter] at hm
      exact ⟨rfl, hm.1, hm.2⟩

/-- With no row meeting the condition `First` fails. -/
theorem gormFirst_no_match {α : Type} (flt : Option DBError) (key : α → UUID) (rows : List α)
    (cond : α → Bool) (h : ∀ r ∈ rows, cond r = false) :
    ∃ e, gormFirst flt key rows cond = .error e := by
  unfold gormFirst
  cases flt with
  | some e => exact ⟨e, rfl⟩
  | none =>
    have hnil : rows.filter cond = [] := by
      rw [List.filter_eq_nil_iff]
      intro a ha
      simp [h a ha]
    simp only [hnil, firstByID]
    exact ⟨_, rfl⟩

/-- A query that is not failing and has a matching row returns a row. -/
theorem gormFirst_match {α : Type} (key : α → UUID) (rows : List α) (cond : α → Bool)
    (a : α) (ha : a ∈ rows) (hc : cond a = true) :
    ∃ r, gormFirst none key rows cond = .ok r := by
  unfold gormFirst
  simp only
  cases hf : firstByID key (rows.filter cond) with
  | none =>
    rw [firstByID_eq_none] at hf
    have : a ∈ rows.filter cond := List.mem_filter.mpr ⟨ha, hc⟩
    rw [hf] at this
    simp at this
  | some r => exact ⟨r, rfl⟩

theorem fault_of_healthy {db : DB} (h : db.healthy) (op : StoreOp) : db.fault op = none := by
  unfold DB.healthy at h
  simp [DB.fault, h]

/-! ## `ClaimToken`, branch by branch -/

theorem claimToken_of_find_error {hmac : HMAC} {cfg : Config} {db : DB} {now : Time}
    {code packageID : String} {e : DBError} (h : OTCRepository.FindByCode db code = .error e) :
    OTCService.ClaimToken hmac cfg db now code packageID = (.error .ErrCodeExpired, db) := by
  simp [OTCService.ClaimToken, h]

theorem claimToken_of_unusable {hmac : HMAC} {cfg : Config} {db : DB} {now : Time}
    {code packageID : String} {otc : OneTimeCode}
    (h : OTCRepository.FindByCode db code = .ok otc)
    (hu : otc.Claimed = true ∨ otc.ExpiresAt < now) :
    OTCService.ClaimToken hmac cfg db now code packageID = (.error .ErrCodeExpired, db) := by
  simp only [OTCService.ClaimToken, h]
  rw [if_pos]
  rcases hu with hc | he
  · simp [hc]
  · simp [he]

theorem claimToken_of_usable {hmac : HMAC} {cfg : Config} {db : DB} {now : Time}
    {code packageID : String} {otc : OneTimeCode}
    (h : OTCRepository.FindByCode db code = .ok otc)
    (hc : otc.Claimed = false) (he : ¬ otc.ExpiresAt < now) :
    OTCService.ClaimToken hmac cfg db now code packageID =
      match AppRepository.FindByPackageID db packageID with
      | .error _ => (.error .ErrAppNotFound, db)
      | .ok app =>
        if app.ID ≠ otc.AppID then (.error .ErrAppMismatch, db)
        else
          match OTCRepository.MarkClaimed db otc with
          | (.error err, db1) => (.error (.store err), db1)
          | (.ok _, db1) =>
            (AuthService.GenerateTokenPairForUser hmac cfg db1 now otc.UserID, db1) := by
  simp only [OTCService.ClaimToken, h]
  rw [if_neg]
  simp [hc, he]

/-- C5. Undifferentiated code failure. For every code value and every package
id, known or not: when no row carries the code value, or the row found is
already claimed, or the row found is past its expiry (`expires_at < now`),
`ClaimToken` returns the one error `ErrCodeExpired` (so neither
`ErrAppNotFound` nor `ErrAppMismatch`), returns no token pair, and leaves the
database as it was. -/
theorem claimToken_code_failure_undifferentiated (hmac : HMAC) (cfg : Config) (db : DB)
    (now : Time) (code packageID : String)
    (h : (∀ r ∈ db.codes, r.Code ≠ code) ∨
      (∃ otc, OTCRepository.FindByCode db code = .ok otc ∧ otc.Claimed = true) ∨
      (∃ otc, OTCRepository.FindByCode db code = .ok otc ∧ otc.ExpiresAt < now)) :
    OTCService.ClaimToken hmac cfg db now code packageID = (.error .ErrCodeExpired, db) := by
  rcases h with habs | ⟨otc, hf, hc⟩ | ⟨otc, hf, he⟩
  · obtain ⟨e, he⟩ := gormFirst_no_match (db.fault .OTCFindByCode) OneTimeCode.ID db.codes
      (fun r => decide (r.Code = code)) (by
        intro r hr
        simpa using habs r hr)
    exact claimToken_of_find_error he
  · exact claimToken_of_unusable hf (Or.inl hc)
  · exact claimToken_of_unusable hf (Or.inr he)

/-- Witness of C5: the three failures, each with a package id that resolves
(`com.a`), one that resolves to another app (`com.b`) and one that is
unknown. -/
theorem claimToken_code_failure_undifferentiated_witness :
    OTCService.ClaimToken toyHMAC scenarioConfig scenarioDB 5 "deadbeef1234" "com.zzz"
        = (.error .ErrCodeExpired, scenarioDB) ∧
      OTCService.ClaimToken toyHMAC scenarioConfig scenarioClaimed 5 "deadbeef1234" "com.a"
        = (.error .ErrCodeExpired, scenarioClaimed) ∧
      OTCService.ClaimToken toyHMAC scenarioConfig scenarioPending 30000000001 "deadbeef1234"
        "com.b" = (.error .ErrCodeExpired, scenarioPending) :=
  ⟨claimToken_code_failure_undifferentiated _ _ _ _ _ _ (Or.inl (by decide)),
   claimToken_code_failure_undifferentiated _ _ _ _ _ _
     (Or.inr (Or.inl ⟨{ scenarioCode with Claimed := true }, by rfl, by rfl⟩)),
   claimToken_code_failure_undifferentiated _ _ _ _ _ _
     (Or.inr (Or.inr ⟨scenarioCode, by rfl, by decide⟩))⟩

/-- C6. App binding. For a code that is pending and not past its expiry
(`claimed = false`, not `expires_at < now`): a package id that resolves to a
registered app whose key differs from the key the code is bound to makes
`ClaimToken` fail with `ErrAppMismatch`, and a package id that no registered
app carries makes it fail with `ErrAppNotFound`; both times no token pair is
returned and the database is as it was. -/
theorem claimToken_app_binding (hmac : HMAC) (cfg : Config) (db : DB) (now : Time)
    (code packageID : String) (otc : OneTimeCode)
    (hFind : OTCRepository.FindByCode db code = .ok otc)
    (hPending : otc.Claimed = false) (hUnexpired : ¬ otc.ExpiresAt < now) :
    (∀ b, AppRepository.FindByPackageID db packageID = .ok b → b.ID ≠ otc.AppID →
        OTCService.ClaimToken hmac cfg db now code packageID = (.error .ErrAppMismatch, db)) ∧
      ((∀ a ∈ db.apps, a.PackageID ≠ packageID) →
        OTCService.ClaimToken hmac cfg db now code packageID = (.error .ErrAppNotFound, db)) := by
  rw [claimToken_of_usable hFind hPending hUnexpired]
  constructor
  · intro b hb hne
    simp [hb, hne]
  · intro hnone
    obtain ⟨e, he⟩ := gormFirst_no_match (db.fault .AppFindByPackageID) App.ID db.apps
      (fun a => decide (a.PackageID = packageID)) (by
        intro a ha
        simpa using hnone a ha)
    simp only [AppRepository.FindByPackageID, he]

/-- Witness of C6: the pending code of the scenario, bound to app A, claimed
with the package id of app B and with an unknown package id. -/
theorem claimToken_app_binding_witness :
    OTCService.ClaimToken toyHMAC scenarioConfig scenarioPending 5 "deadbeef1234" "com.b"
        = (.error .ErrAppMismatch, scenarioPending) ∧
      OTCService.ClaimToken toyHMAC scenarioConfig scenarioPending 5 "deadbeef1234" "com.none"
        = (.error .ErrAppNotFound, scenarioPending) :=
  ⟨(claimToken_app_binding toyHMAC scenarioConfig scenarioPending 5 "deadbeef1234" "com.b"
      scenarioCode (by rfl) (by rfl) (by decide)).1 appB (by rfl) (by decide),
   (claimToken_app_binding toyHMAC scenarioConfig scenarioPending 5 "deadbeef1234" "com.none"
      scenarioCode (by rfl) (by rfl) (by decide)).2 (by decide)⟩

/-! ## `ExchangeCode` -/

/-- C7. Preconditions of `ExchangeCode`. For every user key and app key:
when no registered app has the app key the call fails with `ErrAppNotFound`;
when an app has the key, the queries reach the data and no permission row
joins the user to the app, the call fails with `ErrNoPermission`. Both times
the database, and so the code store, is exactly as it was. -/
theorem exchangeCode_preconditions (cfg : Config) (db : DB) (now : Time)
    (randRead : Option (List Nat)) (genID userID appID : UUID) :
    ((∀ a ∈ db.apps, a.ID ≠ appID) →
        OTCService.ExchangeCode cfg db now randRead genID userID appID
          = (.error .ErrAppNotFound, db)) ∧
      ((∃ a ∈ db.apps, a.ID = appID) → db.healthy →
        (∀ p ∈ db.perms, ¬ (p.UserID = userID ∧ p.AppID = appID)) →
        OTCService.ExchangeCode cfg db now randRead genID userID appID
          = (.error .ErrNoPermission, db)) := by
  constructor
  · intro hnone
    obtain ⟨e, he⟩ := gormFirst_no_match (db.fault .AppFindByID) App.ID db.apps
      (fun a => decide (a.ID = appID)) (by
        intro a ha
        simpa using hnone a ha)
    simp only [OTCService.ExchangeCode, AppRepository.FindByID, he]
  · rintro ⟨a, ha, hid⟩ hh hperm
    have hfind : ∃ r, AppRepository.FindByID db appID = .ok r := by
      unfold AppRepository.FindByID
      rw [fault_of_healthy hh]
      exact gormFirst_match App.ID db.apps _ a ha (by simpa using hid)
    obtain ⟨r, hr⟩ := hfind
    have hcount : AppRepository.HasPermission db userID appID = .ok false := by
      unfold AppRepository.HasPermission
      rw [fault_of_healthy hh]
      have hnil : db.perms.filter
          (fun p => decide (p.UserID = userID) && decide (p.AppID = appID)) = [] := by
        rw [List.filter_eq_nil_iff]
        intro p hp
        simpa using hperm p hp
      simp [hnil]
    simp [OTCService.ExchangeCode, hr, hcount]

/-- Witness of C7: in the scenario no app has key `12`, and user U holds no
permission for app B. -/
theorem exchangeCode_preconditions_witness :
    OTCService.ExchangeCode scenarioConfig scenarioDB 0 (some scenarioBytes) 100 1 12
        = (.error .ErrAppNotFound, scenarioDB) ∧
      OTCService.ExchangeCode scenarioConfig scenarioDB 0 (some scenarioBytes) 100 1 11
        = (.error .ErrNoPermission, scenarioDB) :=
  ⟨(exchangeCode_preconditions scenarioConfig scenarioDB 0 (some scenarioBytes) 100 1 12).1
      (by decide),
   (exchangeCode_preconditions scenarioConfig scenarioDB 0 (some scenarioBytes) 100 1 11).2
      ⟨appB, by decide, by decide⟩ (by decide) (by decide)⟩

/-- The insert rejects a row whose code value a stored row already has, and
changes nothing. -/
theorem create_duplicate_code {db : DB} (genID : UUID) {otc : OneTimeCode}
    (hf : db.fault .OTCCreate = none) (hDup : ∃ r ∈ db.codes, r.Code = otc.Code) :
    OTCRepository.Create db genID otc = (.error .ErrDuplicatedKey, db) := by
  obtain ⟨r, hr, hcode⟩ := hDup
  unfold OTCRepository.Create
  rw [hf]
  simp only
  rw [if_pos]
  rw [List.any_eq_true]
  exact ⟨r, hr, by simp [hcode]⟩

/-- C8, the claim as written fails: with the code `deadbeef1234` already in
the store, an exchange that draws the same six bytes returns the error of the
insert, a duplicate key, and not `ErrCodeGeneration`. -/
theorem exchangeCode_collision_not_ErrCodeGeneration :
    (∃ r ∈ scenarioPending.codes, r.Code = hexEncodeToString scenarioBytes) ∧
      (OTCService.ExchangeCode scenarioConfig scenarioPending 5 (some scenarioBytes) 101 1 10).1
        = .error (.store .ErrDuplicatedKey) ∧
      (OTCService.ExchangeCode scenarioConfig scenarioPending 5 (some scenarioBytes) 101 1 10).1
        ≠ .error .ErrCodeGeneration :=
  ⟨⟨scenarioCode, by decide, by decide⟩, by rfl, by
    have h : (OTCService.ExchangeCode scenarioConfig scenarioPending 5 (some scenarioBytes)
        101 1 10).1 = .error (.store .ErrDuplicatedKey) := by rfl
    rw [h]
    simp⟩

/-- C8, amended. For every store: when the app is found, the permission is
held, the random source delivers and the code value drawn is already the code
of a stored row, `ExchangeCode` fails with the error of the insert handed on
unchanged (a store error, the duplicate key when the insert reaches the data;
never `ErrCodeGeneration`), and the database, the existing row included, is
exactly as it was. -/
theorem exchangeCode_collision (cfg : Config) (db : DB) (now : Time) (codeBytes : List Nat)
    (genID userID appID : UUID) (a : App)
    (hApp : AppRepository.FindByID db appID = .ok a)
    (hPerm : AppRepository.HasPermission db userID appID = .ok true)
    (hDup : ∃ r ∈ db.codes, r.Code = hexEncodeToString codeBytes) :
    ∃ e, OTCService.ExchangeCode cfg db now (some codeBytes) genID userID appID
        = (.error (.store e), db) ∧
      (db.fault .OTCCreate = none → e = .ErrDuplicatedKey) := by
  cases hf : db.fault .OTCCreate with
  | some e =>
    refine ⟨e, ?_, by simp⟩
    simp [OTCService.ExchangeCode, hApp, hPerm, OTCRepository.Create, hf]
  | none =>
    refine ⟨.ErrDuplicatedKey, ?_, fun _ => rfl⟩
    simp only [OTCService.ExchangeCode, hApp, hPerm]
    rw [create_duplicate_code genID hf hDup]
    simp

/-- Witness of C8, amended: the collision of the scenario. -/
theorem exchangeCode_collision_witness :
    ∃ e, OTCService.ExchangeCode scenarioConfig scenarioPending 5 (some scenarioBytes) 101 1 10
        = (.error (.store e), scenarioPending) ∧
      (scenarioPending.fault .OTCCreate = none → e = .ErrDuplicatedKey) :=
  exchangeCode_collision scenarioConfig scenarioPending 5 scenarioBytes 101 1 10 appA
    (by rfl) (by rfl) ⟨scenarioCode, by decide, by decide⟩

/-! ## The sweep -/

/-- The rows a sweep at `now` keeps. -/
theorem cleanExpired_codes {db : DB} (now : Time) (h : db.fault .OTCCleanExpired = none) :
    OTCRepository.CleanExpired db now =
      (.ok (), { db with codes := db.codes.filter (fun r =>
        decide (r.Claimed = false ∧ ¬ r.ExpiresAt < now)) }) := by
  unfold OTCRepository.CleanExpired
  rw [h]
  simp only [Prod.mk.injEq, true_and]
  congr 1
  apply List.filter_congr
  intro r _
  by_cases he : r.ExpiresAt < now <;> cases r.Claimed <;> simp [he]

/-- C9. Result of the sweep. For every database on which the delete query is
not failing and every time `now`, `CleanExpiredCodes` succeeds and leaves in
`one_time_codes` exactly the rows that had `claimed = false` and did not have
`expires_at < now`, each as it was and in the same order, and leaves the other
tables alone. No row with `claimed = true` or `expires_at < now` can be
retrieved afterwards, and a second sweep at the same time changes nothing. -/
theorem cleanExpiredCodes_result (db : DB) (now : Time)
    (h : db.fault .OTCCleanExpired = none) :
    (OTCService.CleanExpiredCodes db now).1 = .ok () ∧
      (OTCService.CleanExpiredCodes db now).2 =
        { db with codes := db.codes.filter (fun r =>
          decide (r.Claimed = false ∧ ¬ r.ExpiresAt < now)) } ∧
      (∀ r, r ∈ (OTCService.CleanExpiredCodes db now).2.codes ↔
        r ∈ db.codes ∧ r.Claimed = false ∧ ¬ r.ExpiresAt < now) ∧
      (∀ code otc, OTCRepository.FindByCode (OTCService.CleanExpiredCodes db now).2 code = .ok otc →
        otc ∈ db.codes ∧ otc.Claimed = false ∧ ¬ otc.ExpiresAt < now) ∧
      OTCService.CleanExpiredCodes (OTCService.CleanExpiredCodes db now).2 now =
        (.ok (), (OTCService.CleanExpiredCodes db now).2) := by
  have hrun : OTCService.CleanExpiredCodes db now =
      (.ok (), { db with codes := db.codes.filter (fun r =>
        decide (r.Claimed = false ∧ ¬ r.ExpiresAt < now)) }) := by
    simp only [OTCService.CleanExpiredCodes, cleanExpired_codes now h]
  have hmem : ∀ r, r ∈ (OTCService.CleanExpiredCodes db now).2.codes ↔
      r ∈ db.codes ∧ r.Claimed = false ∧ ¬ r.ExpiresAt < now := by
    intro r
    rw [hrun]
    simp [List.mem_filter]
  refine ⟨by rw [hrun], by rw [hrun], hmem, ?_, ?_⟩
  · intro code otc hfind
    exact (hmem otc).mp (gormFirst_ok hfind).2.1
  · rw [hrun]
    have h2 : DB.fault { db with codes := db.codes.filter (fun r =>
        decide (r.Claimed = false ∧ ¬ r.ExpiresAt < now)) } .OTCCleanExpired = none := h
    simp only [OTCService.CleanExpiredCodes, cleanExpired_codes now h2, List.filter_filter,
      Bool.and_self]

/-- Witness of C9: a store with a claimed row, an expired row and a live row,
swept at time `10`. -/
theorem cleanExpiredCodes_result_witness :
    (OTCService.CleanExpiredCodes
        { scenarioDB with codes :=
          [{ scenarioCode with Claimed := true },
           { scenarioCode with ID := 101, Code := "0000000000aa", ExpiresAt := 9 },
           { scenarioCode with ID := 102, Code := "0000000000bb", ExpiresAt := 10 }] } 10).2.codes
      = [{ scenarioCode with ID := 102, Code := "0000000000bb", ExpiresAt := 10 }] := by
  have h := (cleanExpiredCodes_result
    { scenarioDB with codes :=
      [{ scenarioCode with Claimed := true },
       { scenarioCode with ID := 101, Code := "0000000000aa", ExpiresAt := 9 },
       { scenarioCode with ID := 102, Code := "0000000000bb", ExpiresAt := 10 }] } 10
    (by rfl)).2.1
  rw [h]
  rfl

/-! ## The claim: mark and mint -/

/-- The update touches `one_time_codes` only. -/
theorem markClaimed_other_tables (db : DB) (otc : OneTimeCode) :
    (OTCRepository.MarkClaimed db otc).2.users = db.users ∧
      (OTCRepository.MarkClaimed db otc).2.apps = db.apps ∧
      (OTCRepository.MarkClaimed db otc).2.perms = db.perms ∧
      (OTCRepository.MarkClaimed db otc).2.faults = db.faults := by
  unfold OTCRepository.MarkClaimed
  cases db.fault .OTCMarkClaimed with
  | some e => simp
  | none =>
    by_cases hid : otc.ID = uuidNil
    · simp [hid]
    · simp [hid]

/-- A user lookup depends on the table `users` and on the failing queries. -/
theorem user_findByID_congr {db db1 : DB} (hu : db1.users = db.users)
    (hf : db1.faults = db.faults) (id : UUID) :
    UserRepository.FindByID db1 id = UserRepository.FindByID db id := by
  simp [UserRepository.FindByID, DB.fault, hu, hf]

/-- An update that goes through: the rows with the key of `otc` become claimed. -/
theorem markClaimed_ok {db : DB} {otc : OneTimeCode} (hf : db.fault .OTCMarkClaimed = none)
    (hid : otc.ID ≠ uuidNil) :
    OTCRepository.MarkClaimed db otc =
      (.ok (), { db with codes := db.codes.map (fun r =>
        if r.ID = otc.ID then { r with Claimed := true } else r) }) := by
  unfold OTCRepository.MarkClaimed
  rw [hf]
  simp [hid]

/-- Minting for a user that resolves is `generateTokenPair` for that user. -/
theorem generateTokenPairForUser_of_found {hmac : HMAC} {cfg : Config} {db : DB} {now : Time}
    {userID : UUID} {user : User} (h : UserRepository.FindByID db userID = .ok user) :
    AuthService.GenerateTokenPairForUser hmac cfg db now userID =
      AuthService.generateTokenPair hmac cfg now user := by
  simp [AuthService.GenerateTokenPairForUser, h]

/-- Signing does not fail: `generateTokenPair` always returns a pair. -/
theorem generateTokenPair_ok (hmac : HMAC) (cfg : Config) (now : Time) (user : User) :
    ∃ pair, AuthService.generateTokenPair hmac cfg now user = .ok pair :=
  ⟨_, rfl⟩

/-- A claim of a usable code with the package id of its app, when the update
goes through and the owner resolves: the rows with the key of the code are
marked and the pair is minted for the owner. -/
theorem claimToken_success {hmac : HMAC} {cfg : Config} {db : DB} {now : Time}
    {code packageID : String} {otc : OneTimeCode} {app : App} {user : User}
    (hFind : OTCRepository.FindByCode db code = .ok otc)
    (hc : otc.Claimed = false) (he : ¬ otc.ExpiresAt < now)
    (hApp : AppRepository.FindByPackageID db packageID = .ok app) (hBound : app.ID = otc.AppID)
    (hf : db.fault .OTCMarkClaimed = none) (hid : otc.ID ≠ uuidNil)
    (hUser : UserRepository.FindByID db otc.UserID = .ok user) :
    OTCService.ClaimToken hmac cfg db now code packageID =
      (AuthService.generateTokenPair hmac cfg now user,
        { db with codes := db.codes.map (fun r =>
          if r.ID = otc.ID then { r with Claimed := true } else r) }) := by
  rw [claimToken_of_usable hFind hc he]
  simp only [hApp, hBound, ne_eq, not_true_eq_false, if_false]
  rw [markClaimed_ok hf hid]
  simp only
  rw [generateTokenPairForUser_of_found]
  rw [user_findByID_congr rfl rfl]
  exact hUser

/-- C4, the claim as written fails: at `now = expires_at` the pending code of
the scenario is still claimed with success, although `now < expires_at` does
not hold. -/
theorem claimToken_at_expiry_instant :
    OTCRepository.FindByCode scenarioPending "deadbeef1234" = .ok scenarioCode ∧
      scenarioCode.Claimed = false ∧
      ¬ ((30000000000 : Time) < scenarioCode.ExpiresAt) ∧
      (OTCService.ClaimToken toyHMAC scenarioConfig scenarioPending 30000000000
          "deadbeef1234" "com.a").1
        = AuthService.generateTokenPair toyHMAC scenarioConfig 30000000000 userU ∧
      (∃ pair, (OTCService.ClaimToken toyHMAC scenarioConfig scenarioPending 30000000000
          "deadbeef1234" "com.a").1 = .ok pair) :=
  ⟨by rfl, by rfl, by decide, by rfl, ⟨_, by rfl⟩⟩

/-- C4, amended. For every stored code row (the row the lookup returns) and
every time `now`, `ClaimToken` with a package id that resolves to the app the
row is bound to stops at the code check, with `ErrCodeExpired`, if and only
if `claimed = true` or `expires_at < now`; and when the update is not failing,
the row has a key and the owner resolves, it returns a token pair if and only
if `claimed = false` and `now ≤ expires_at`. At `now = expires_at` the code
is still claimable. -/
theorem claimToken_usability_boundary (hmac : HMAC) (cfg : Config) (db : DB) (now : Time)
    (code packageID : String) (otc : OneTimeCode) (app : App)
    (hFind : OTCRepository.FindByCode db code = .ok otc)
    (hApp : AppRepository.FindByPackageID db packageID = .ok app)
    (hBound : app.ID = otc.AppID) :
    ((OTCService.ClaimToken hmac cfg db now code packageID).1 = .error .ErrCodeExpired ↔
        (otc.Claimed = true ∨ otc.ExpiresAt < now)) ∧
      (∀ user, db.fault .OTCMarkClaimed = none → otc.ID ≠ uuidNil →
        UserRepository.FindByID db otc.UserID = .ok user →
        ((∃ pair, (OTCService.ClaimToken hmac cfg db now code packageID).1 = .ok pair) ↔
          (otc.Claimed = false ∧ now ≤ otc.ExpiresAt))) := by
  constructor
  · constructor
    · intro hres
      by_contra hcon
      push_neg at hcon
      have hc : otc.Claimed = false := by
        cases h : otc.Claimed with
        | false => rfl
        | true => exact absurd h hcon.1
      have he : ¬ otc.ExpiresAt < now := not_lt.mpr hcon.2
      rw [claimToken_of_usable hFind hc he] at hres
      simp only [hApp, hBound, ne_eq, not_true_eq_false, if_false] at hres
      cases hm : OTCRepository.MarkClaimed db otc with
      | mk res db1 =>
        rw [hm] at hres
        cases res with
        | error err => simp at hres
        | ok _ =>
          simp only [AuthService.GenerateTokenPairForUser] at hres
          cases hu : UserRepository.FindByID db1 otc.UserID with
          | error e => rw [hu] at hres; simp at hres
          | ok u =>
            rw [hu] at hres
            simp [AuthService.generateTokenPair] at hres
    · intro hu
      rw [claimToken_of_unusable hFind hu]
  · intro user hf hid hUser
    constructor
    · rintro ⟨pair, hpair⟩
      by_contra hcon
      have hu : otc.Claimed = true ∨ otc.ExpiresAt < now := by
        by_cases hc : otc.Claimed = true
        · exact Or.inl hc
        · right
          have hc2 : otc.Claimed = false := by simpa using hc
          by_contra hlt
          exact hcon ⟨hc2, not_lt.mp hlt⟩
      rw [claimToken_of_unusable hFind hu] at hpair
      simp at hpair
    · rintro ⟨hc, he⟩
      rw [claimToken_success hFind hc (not_lt.mpr he) hApp hBound hf hid hUser]
      exact generateTokenPair_ok hmac cfg now user

/-- Witness of C4, amended: the pending code of the scenario at the instant
it expires. -/
theorem claimToken_usability_boundary_witness :
    ((OTCService.ClaimToken toyHMAC scenarioConfig scenarioPending 30000000000
          "deadbeef1234" "com.a").1 = .error .ErrCodeExpired ↔
        (scenarioCode.Claimed = true ∨ scenarioCode.ExpiresAt < 30000000000)) ∧
      ((∃ pair, (OTCService.ClaimToken toyHMAC scenarioConfig scenarioPending 30000000000
          "deadbeef1234" "com.a").1 = .ok pair) ↔
        (scenarioCode.Claimed = false ∧ (30000000000 : Time) ≤ scenarioCode.ExpiresAt)) :=
  ⟨(claimToken_usability_boundary toyHMAC scenarioConfig scenarioPending 30000000000
      "deadbeef1234" "com.a" scenarioCode appA (by rfl) (by rfl) (by rfl)).1,
   (claimToken_usability_boundary toyHMAC scenarioConfig scenarioPending 30000000000
      "deadbeef1234" "com.a" scenarioCode appA (by rfl) (by rfl) (by rfl)).2 userU
      (by rfl) (by decide) (by rfl)⟩

/-! ## A spent code stays spent -/

theorem claimToken_of_spent {hmac : HMAC} {cfg : Config} {db : DB} {c : String}
    (h : CodeSpent c db) (now : Time) (packageID : String) :
    OTCService.ClaimToken hmac cfg db now c packageID = (.error .ErrCodeExpired, db) := by
  cases hf : OTCRepository.FindByCode db c with
  | error e => exact claimToken_of_find_error hf
  | ok otc =>
    have hm := gormFirst_ok hf
    have hcode : otc.Code = c := by simpa using hm.2.2
    exact claimToken_of_unusable hf (Or.inl (h otc hm.2.1 hcode))

/-- The update keeps every code value and never clears a claimed flag. -/
theorem markClaimed_codes (db : DB) (otc : OneTimeCode) :
    ∀ r1 ∈ (OTCRepository.MarkClaimed db otc).2.codes,
      ∃ r ∈ db.codes, r1.Code = r.Code ∧ (r.Claimed = true → r1.Claimed = true) := by
  intro r1 hr1
  unfold OTCRepository.MarkClaimed at hr1
  cases hf : db.fault .OTCMarkClaimed with
  | some e =>
    rw [hf] at hr1
    exact ⟨r1, hr1, rfl, id⟩
  | none =>
    rw [hf] at hr1
    by_cases hid : otc.ID = uuidNil
    · simp only [hid, if_true] at hr1
      exact ⟨r1, hr1, rfl, id⟩
    · simp only [hid, if_false, List.mem_map] at hr1
      obtain ⟨r, hr, heq⟩ := hr1
      refine ⟨r, hr, ?_⟩
      by_cases hk : r.ID = otc.ID
      · rw [if_pos hk] at heq
        subst heq
        exact ⟨rfl, fun _ => rfl⟩
      · rw [if_neg hk] at heq
        subst heq
        exact ⟨rfl, id⟩

/-- The database after `ClaimToken` is the one before, or the one the update
leaves. -/
theorem claimToken_db (hmac : HMAC) (cfg : Config) (db : DB) (now : Time)
    (code packageID : String) :
    (OTCService.ClaimToken hmac cfg db now code packageID).2 = db ∨
      ∃ otc, (OTCService.ClaimToken hmac cfg db now code packageID).2
        = (OTCRepository.MarkClaimed db otc).2 := by
  unfold OTCService.ClaimToken
  cases OTCRepository.FindByCode db code with
  | error e => exact Or.inl rfl
  | ok otc =>
    simp only
    split
    · exact Or.inl rfl
    · cases AppRepository.FindByPackageID db packageID with
      | error e => exact Or.inl rfl
      | ok app =>
        simp only
        split
        · exact Or.inl rfl
        · right
          refine ⟨otc, ?_⟩
          cases hm : OTCRepository.MarkClaimed db otc with
          | mk res db1 =>
            cases res with
            | error err => rfl
            | ok _ => rfl

/-- The database after the insert is the one before, or the one before with
the new row at the end of `one_time_codes`. -/
theorem create_db (db : DB) (genID : UUID) (otc : OneTimeCode) :
    (OTCRepository.Create db genID otc).2 = db ∨
      (OTCRepository.Create db genID otc).2 =
        { db with codes := db.codes ++
          [{ otc with ID := if otc.ID = uuidNil then genID else otc.ID }] } := by
  unfold OTCRepository.Create
  cases db.fault .OTCCreate with
  | some e => exact Or.inl rfl
  | none =>
    simp only
    by_cases h1 : (db.codes.any (fun r =>
        decide (r.ID = (if otc.ID = uuidNil then genID else otc.ID)) ||
          decide (r.Code = otc.Code))) = true
    · rw [if_pos h1]; exact Or.inl rfl
    · rw [if_neg h1]
      by_cases h2 : (!(db.users.any (fun u => decide (u.ID = otc.UserID)))) = true
      · rw [if_pos h2]; exact Or.inl rfl
      · rw [if_neg h2]
        by_cases h3 : (!(db.apps.any (fun a => decide (a.ID = otc.AppID)))) = true
        · rw [if_pos h3]; exact Or.inl rfl
        · rw [if_neg h3]; exact Or.inr rfl

/-- The insert keeps the stored rows and adds at most the new one. -/
theorem create_codes (db : DB) (genID : UUID) (otc : OneTimeCode) :
    ∀ r1 ∈ (OTCRepository.Create db genID otc).2.codes,
      r1 ∈ db.codes ∨ (r1.Code = otc.Code ∧ r1.Claimed = otc.Claimed) := by
  intro r1 hr1
  rcases create_db db genID otc with h | h
  · rw [h] at hr1
    exact Or.inl hr1
  · rw [h] at hr1
    simp only [List.mem_append, List.mem_singleton] at hr1
    rcases hr1 with h | h
    · exact Or.inl h
    · right
      subst h
      exact ⟨rfl, rfl⟩

/-- Handing on the outcome of a store call leaves the database it returns. -/
theorem handOn_snd {α : Type} (x : Except DBError Unit × DB) (v : α) :
    (match x with
      | (.error err, db1) => ((.error (.store err) : Except Error α), db1)
      | (.ok _, db1) => (.ok v, db1)).2 = x.2 := by
  rcases x with ⟨res, db1⟩
  cases res <;> rfl

/-- The database after `ExchangeCode` is the one before, or the one the
insert of a row with the code drawn leaves. -/
theorem exchangeCode_db (cfg : Config) (db : DB) (now : Time) (randRead : Option (List Nat))
    (genID userID appID : UUID) :
    (OTCService.ExchangeCode cfg db now randRead genID userID appID).2 = db ∨
      ∃ codeBytes otc, randRead = some codeBytes ∧ otc.Code = hexEncodeToString codeBytes ∧
        (OTCService.ExchangeCode cfg db now randRead genID userID appID).2
          = (OTCRepository.Create db genID otc).2 := by
  unfold OTCService.ExchangeCode
  cases AppRepository.FindByID db appID with
  | error e => exact Or.inl rfl
  | ok app =>
    simp only
    cases AppRepository.HasPermission db userID appID with
    | error e => exact Or.inl rfl
    | ok hasPermission =>
      simp only
      split
      · exact Or.inl rfl
      · cases randRead with
        | none => exact Or.inl rfl
        | some codeBytes =>
          right
          exact ⟨codeBytes, ⟨uuidNil, userID, appID, hexEncodeToString codeBytes,
            now + cfg.OTCExpiry, false⟩, rfl, rfl, handOn_snd _ _⟩

/-- A request that does not draw code value `c` leaves it spent. -/
theorem spent_preserved {hmac : HMAC} {cfg : Config} {db : DB} {c : String} {req : Request}
    (h : CodeSpent c db) (hreq : req.drawsCode c = false) :
    CodeSpent c (req.apply hmac cfg db) := by
  cases req with
  | exchange now randRead genID userID appID =>
    simp only [Request.apply]
    rcases exchangeCode_db cfg db now randRead genID userID appID with hd | ⟨bytes, otc, hr, hc, hd⟩
    · rw [hd]; exact h
    · rw [hd]
      intro r1 hr1 hcode
      rcases create_codes db genID otc r1 hr1 with hin | ⟨hnew, _⟩
      · exact h r1 hin hcode
      · exfalso
        subst hr
        simp only [Request.drawsCode, decide_eq_false_iff_not] at hreq
        exact hreq (by rw [← hc, ← hnew, hcode])
  | claim now code packageID =>
    simp only [Request.apply]
    rcases claimToken_db hmac cfg db now code packageID with hd | ⟨otc, hd⟩
    · rw [hd]; exact h
    · rw [hd]
      intro r1 hr1 hcode
      obtain ⟨r, hr, hsame, hkeep⟩ := markClaimed_codes db otc r1 hr1
      exact hkeep (h r hr (by rw [← hsame, hcode]))
  | sweep now =>
    simp only [Request.apply, OTCService.CleanExpiredCodes, OTCRepository.CleanExpired]
    cases db.fault .OTCCleanExpired with
    | some e => exact h
    | none =>
      intro r1 hr1 hcode
      simp only [List.mem_filter] at hr1
      exact h r1 hr1.1 hcode
  | setFaults faults =>
    exact h

/-- Served one after the other, requests that do not draw `c` leave it spent. -/
theorem serve_spent {hmac : HMAC} {cfg : Config} {c : String} :
    ∀ (reqs : List Request) (db : DB), CodeSpent c db →
      (∀ req ∈ reqs, req.drawsCode c = false) → CodeSpent c (serve hmac cfg db reqs) := by
  intro reqs
  induction reqs with
  | nil => intro db h _; exact h
  | cons req rest ih =>
    intro db h hall
    simp only [serve, List.foldl_cons]
    exact ih _ (spent_preserved h (hall req (List.mem_cons_self _ _)))
      (fun r hr => hall r (List.mem_cons_of_mem _ hr))

/-! ## Exchange, then claim -/

/-- An insert that succeeds: no stored row had the key or the code value, and
the new row is added at the end. -/
theorem create_ok_inv {db db1 : DB} {genID : UUID} {otc : OneTimeCode}
    (h : OTCRepository.Create db genID otc = (.ok (), db1)) :
    (∀ r ∈ db.codes, r.ID ≠ (if otc.ID = uuidNil then genID else otc.ID) ∧ r.Code ≠ otc.Code) ∧
      db1 = { db with codes := db.codes ++
        [{ otc with ID := if otc.ID = uuidNil then genID else otc.ID }] } := by
  unfold OTCRepository.Create at h
  cases hf : db.fault .OTCCreate with
  | some e => rw [hf] at h; simp at h
  | none =>
    rw [hf] at h
    simp only at h
    by_cases h1 : (db.codes.any (fun r =>
        decide (r.ID = (if otc.ID = uuidNil then genID else otc.ID)) ||
          decide (r.Code = otc.Code))) = true
    · rw [if_pos h1] at h; simp at h
    · rw [if_neg h1] at h
      by_cases h2 : (!(db.users.any (fun u => decide (u.ID = otc.UserID)))) = true
      · rw [if_pos h2] at h; simp at h
      · rw [if_neg h2] at h
        by_cases h3 : (!(db.apps.any (fun a => decide (a.ID = otc.AppID)))) = true
        · rw [if_pos h3] at h; simp at h
        · rw [if_neg h3] at h
          simp only [Prod.mk.injEq, true_and] at h
          refine ⟨?_, h.symm⟩
          intro r hr
          rw [List.any_eq_true] at h1
          constructor
          · intro hid
            exact h1 ⟨r, hr, by simp [hid]⟩
          · intro hcode
            exact h1 ⟨r, hr, by simp [hcode]⟩

/-- An exchange that succeeds: the random source delivered, the result names
the code drawn and the instant `now + OTCExpiry`, and the row was inserted. -/
theorem exchangeCode_ok_inv {cfg : Config} {db db1 : DB} {now : Time}
    {randRead : Option (List Nat)} {genID userID appID : UUID} {res : OTCResult}
    (h : OTCService.ExchangeCode cfg db now randRead genID userID appID = (.ok res, db1)) :
    ∃ codeBytes, randRead = some codeBytes ∧
      res = { Code := hexEncodeToString codeBytes, ExpiresAt := now + cfg.OTCExpiry } ∧
      OTCRepository.Create db genID ⟨uuidNil, userID, appID, hexEncodeToString codeBytes,
        now + cfg.OTCExpiry, false⟩ = (.ok (), db1) := by
  unfold OTCService.ExchangeCode at h
  cases hA : AppRepository.FindByID db appID with
  | error e => rw [hA] at h; simp at h
  | ok app =>
    rw [hA] at h
    simp only at h
    cases hP : AppRepository.HasPermission db userID appID with
    | error e => rw [hP] at h; simp at h
    | ok hasPermission =>
      rw [hP] at h
      simp only at h
      by_cases hp : (!hasPermission) = true
      · rw [if_pos hp] at h; simp at h
      · rw [if_neg hp] at h
        cases randRead with
        | none => simp at h
        | some codeBytes =>
          refine ⟨codeBytes, rfl, ?_⟩
          simp only at h
          rcases hC : OTCRepository.Create db genID ⟨uuidNil, userID, appID,
            hexEncodeToString codeBytes, now + cfg.OTCExpiry, false⟩ with ⟨r, d⟩
          rw [hC] at h
          cases r with
          | error err => simp at h
          | ok u =>
            simp only [Prod.mk.injEq, Except.ok.injEq] at h
            exact ⟨h.1.symm, by rw [h.2]⟩

/-- A lookup by code value on a table whose only row with that value is the
last one. -/
theorem findByCode_appended {db : DB} {row : OneTimeCode}
    (hf : db.fault .OTCFindByCode = none) (hnew : ∀ r ∈ db.codes, r.Code ≠ row.Code) :
    OTCRepository.FindByCode { db with codes := db.codes ++ [row] } row.Code = .ok row := by
  have hfilter : (db.codes ++ [row]).filter (fun r => decide (r.Code = row.Code)) = [row] := by
    rw [List.filter_append]
    have hnil : db.codes.filter (fun r => decide (r.Code = row.Code)) = [] := by
      rw [List.filter_eq_nil_iff]
      intro r hr
      simpa using hnew r hr
    rw [hnil]
    simp
  have hf1 : DB.fault { db with codes := db.codes ++ [row] } .OTCFindByCode = none := hf
  unfold OTCRepository.FindByCode gormFirst
  rw [hf1]
  simp only [hfilter, firstByID_singleton]

/-- An app lookup depends on the table `app_registry` and on the failing
queries. -/
theorem app_findByPackageID_congr {db db1 : DB} (ha : db1.apps = db.apps)
    (hf : db1.faults = db.faults) (packageID : String) :
    AppRepository.FindByPackageID db1 packageID = AppRepository.FindByPackageID db packageID := by
  simp [AppRepository.FindByPackageID, DB.fault, ha, hf]

/-- C1, the claim as written fails: in the scenario `ExchangeCode(U, A)` at
time `0` returns `deadbeef1234` and the claim at ten seconds returns a pair;
the sweep at eleven seconds deletes the claimed row; a second
`ExchangeCode(U, A)` at twelve seconds draws the same six bytes and is
accepted, the unique index no longer holding the value; and the later
`ClaimToken("deadbeef1234", "com.a")` at thirteen seconds returns a token
pair, not `ErrCodeExpired`. -/
theorem claim_after_redraw_mints_again :
    OTCService.ExchangeCode scenarioConfig scenarioDB 0 (some scenarioBytes) 100 1 10
        = (.ok ⟨"deadbeef1234", 30000000000⟩, scenarioPending) ∧
      OTCService.ClaimToken toyHMAC scenarioConfig scenarioPending 10000000000
          "deadbeef1234" "com.a"
        = (AuthService.generateTokenPair toyHMAC scenarioConfig 10000000000 userU,
            scenarioClaimed) ∧
      OTCService.CleanExpiredCodes scenarioClaimed 11000000000 = (.ok (), scenarioDB) ∧
      OTCService.ExchangeCode scenarioConfig scenarioDB 12000000000 (some scenarioBytes) 101 1 10
        = (.ok ⟨"deadbeef1234", 42000000000⟩, scenarioRedrawn) ∧
      (OTCService.ClaimToken toyHMAC scenarioConfig scenarioRedrawn 13000000000
          "deadbeef1234" "com.a").1
        = AuthService.generateTokenPair toyHMAC scenarioConfig 13000000000 userU ∧
      (∃ pair, (OTCService.ClaimToken toyHMAC scenarioConfig scenarioRedrawn 13000000000
          "deadbeef1234" "com.a").1 = .ok pair) :=
  ⟨by rfl, by rfl, by rfl, by rfl, by rfl, ⟨_, by rfl⟩⟩

/-- C1, amended. Single use. Take any database whose queries reach the data,
in which user U resolves and package id `p` resolves to app A. If
`ExchangeCode(U, A)` at time `t` returns a code (the database drawing a
non-zero key for the row), then the result expires at `t + OTCExpiry`, and
`ClaimToken(code, p)` at any time `t1` before that instant returns the token
pair `generateTokenPair` mints for U at `t1`. From then on the code is spent
for as long as no exchange draws the same code value again: after any further
requests, served one after the other (claims of any code, sweeps, query
failures coming and going, exchanges that draw another code value or none),
every `ClaimToken` with the code, at any time and for any package id, returns
`ErrCodeExpired` and changes nothing. -/
theorem exchange_then_claim_single_use (hmac : HMAC) (cfg : Config) (db db1 : DB)
    (t t1 : Time) (randRead : Option (List Nat)) (genID U A : UUID) (p : String)
    (u : User) (a : App) (res : OTCResult)
    (hHealthy : db.healthy)
    (hUser : UserRepository.FindByID db U = .ok u)
    (hApp : AppRepository.FindByPackageID db p = .ok a) (hA : a.ID = A)
    (hKey : genID ≠ uuidNil)
    (hEx : OTCService.ExchangeCode cfg db t randRead genID U A = (.ok res, db1))
    (hWindow : t1 < t + cfg.OTCExpiry) :
    res.ExpiresAt = t + cfg.OTCExpiry ∧ u.ID = U ∧
      ∃ pair db2,
        OTCService.ClaimToken hmac cfg db1 t1 res.Code p = (.ok pair, db2) ∧
        AuthService.generateTokenPair hmac cfg t1 u = .ok pair ∧
        ∀ reqs : List Request, (∀ req ∈ reqs, req.drawsCode res.Code = false) →
          ∀ (t2 : Time) (p2 : String),
            OTCService.ClaimToken hmac cfg (serve hmac cfg db2 reqs) t2 res.Code p2
              = (.error .ErrCodeExpired, serve hmac cfg db2 reqs) := by
  obtain ⟨codeBytes, _, hres, hCreate⟩ := exchangeCode_ok_inv hEx
  obtain ⟨hfresh, hdb1⟩ := create_ok_inv hCreate
  simp only [if_true] at hfresh hdb1
  have huid : u.ID = U := by
    have := (gormFirst_ok hUser).2.2
    simp only [Bool.and_eq_true, decide_eq_true_eq] at this
    exact this.1
  obtain ⟨pair, hpair⟩ := generateTokenPair_ok hmac cfg t1 u
  subst hres
  subst hdb1
  have hclaim := @claimToken_success hmac cfg _ t1 _ _
    ⟨genID, U, A, hexEncodeToString codeBytes, t + cfg.OTCExpiry, false⟩ _ _
    (findByCode_appended (fault_of_healthy hHealthy _) (fun r hr => (hfresh r hr).2))
    rfl (not_lt.mpr (le_of_lt hWindow))
    ((app_findByPackageID_congr rfl rfl p).trans hApp) hA
    (fault_of_healthy hHealthy _) hKey
    ((user_findByID_congr rfl rfl U).trans hUser)
  rw [hpair] at hclaim
  refine ⟨rfl, huid, pair, _, hclaim, hpair, ?_⟩
  intro reqs hreqs t2 p2
  apply claimToken_of_spent
  apply serve_spent reqs _ _ hreqs
  intro r hr hcode
  simp only [List.map_append, List.map_cons, List.map_nil, List.mem_append, List.mem_map,
    List.mem_singleton, if_true] at hr
  rcases hr with ⟨r0, hr0, heq⟩ | heq
  · exfalso
    have hcode2 : r.Code = hexEncodeToString codeBytes := hcode
    apply (hfresh r0 hr0).2
    by_cases hk : r0.ID = genID
    · rw [if_pos hk] at heq
      rw [← hcode2, ← heq]
    · rw [if_neg hk] at heq
      rw [← hcode2, ← heq]
  · rw [heq]

/-- Witness of C1, amended: the scenario. `ExchangeCode(U, A)` at time `0` returns
`deadbeef1234`, expiring after thirty seconds; the claim with `com.a` ten
seconds later returns a pair, and the code is spent from then on. -/
theorem exchange_then_claim_single_use_witness :
    OTCService.ExchangeCode scenarioConfig scenarioDB 0 (some scenarioBytes) 100 1 10
        = (.ok ⟨"deadbeef1234", 30000000000⟩, scenarioPending) ∧
      ∃ pair db2,
        OTCService.ClaimToken toyHMAC scenarioConfig scenarioPending 10000000000
          "deadbeef1234" "com.a" = (.ok pair, db2) ∧
        AuthService.generateTokenPair toyHMAC scenarioConfig 10000000000 userU = .ok pair ∧
        ∀ reqs : List Request, (∀ req ∈ reqs, req.drawsCode "deadbeef1234" = false) →
          ∀ (t2 : Time) (p2 : String),
            OTCService.ClaimToken toyHMAC scenarioConfig (serve toyHMAC scenarioConfig db2 reqs)
              t2 "deadbeef1234" p2
              = (.error .ErrCodeExpired, serve toyHMAC scenarioConfig db2 reqs) :=
  ⟨by rfl,
   (exchange_then_claim_single_use toyHMAC scenarioConfig scenarioDB scenarioPending 0
      10000000000 (some scenarioBytes) 100 1 10 "com.a" userU appA
      ⟨"deadbeef1234", 30000000000⟩ (by decide) (by rfl) (by rfl) (by rfl) (by decide)
      (by rfl) (by decide)).2.2⟩

/-! ## Token pairs -/

/-- With a lifetime of a second or more the expiry claim lies after the
instant of issue. -/
theorem numericDate_after_issue (now : Time) (d : Duration) (h : 1000000000 ≤ d) :
    now < NewNumericDate (now + d) := by
  have key : ∀ a b : Int, 1000000000 ≤ b → a < a + b - (a + b) % 1000000000 := by
    intro a b hb
    omega
  exact key now d h

/-- C10. Access round trip and kind separation. For every user, signing
secret, keyed hash and instant of issue, `generateTokenPair` returns a pair.
`ParseAccessToken` applied to its access token, at any time before the expiry
claim of that token, succeeds and returns claims with the user's key and
email and kind `access`; applied to its refresh token, at any time before the
expiry claim of that token, it fails with `ErrInvalidTokenType`. -/
theorem parseAccessToken_round_trip (hmac : HMAC) (cfg : Config) (now : Time) (u : User) :
    ∃ pair, AuthService.generateTokenPair hmac cfg now u = .ok pair ∧
      (∀ t1 : Time, t1 < NewNumericDate (now + cfg.JWTAccessExpiry) →
        ∃ claims, AuthService.ParseAccessToken hmac cfg t1 pair.AccessToken = .ok claims ∧
          claims.UserID = u.ID ∧ claims.Email = u.Email ∧ claims.Type_ = "access") ∧
      (∀ t2 : Time, t2 < NewNumericDate (now + cfg.JWTRefreshExpiry) →
        AuthService.ParseAccessToken hmac cfg t2 pair.RefreshToken
          = .error .ErrInvalidTokenType) := by
  refine ⟨_, rfl, ?_, ?_⟩
  · intro t1 h1
    simp [AuthService.ParseAccessToken, AuthService.parseToken, SignedString,
      SigningMethod.isHMAC, validateClaims, h1]
  · intro t2 h2
    simp [AuthService.ParseAccessToken, AuthService.parseToken, SignedString,
      SigningMethod.isHMAC, validateClaims, h2]

/-- Witness of C10: user U, issued at time `0` with lifetimes of fifteen
minutes and seven days, both tokens presented one minute later. -/
theorem parseAccessToken_round_trip_witness :
    ∃ pair, AuthService.generateTokenPair toyHMAC scenarioConfig 0 userU = .ok pair ∧
      (∃ claims,
        AuthService.ParseAccessToken toyHMAC scenarioConfig 60000000000 pair.AccessToken
          = .ok claims ∧
        claims.UserID = 1 ∧ claims.Email = "u@example.com" ∧ claims.Type_ = "access") ∧
      AuthService.ParseAccessToken toyHMAC scenarioConfig 60000000000 pair.RefreshToken
        = .error .ErrInvalidTokenType := by
  obtain ⟨pair, hp, ha, hr⟩ := parseAccessToken_round_trip toyHMAC scenarioConfig 0 userU
  exact ⟨pair, hp, ha 60000000000 (by decide), hr 60000000000 (by decide)⟩

/-! ## Interleaved claims -/

/-- One call run alone, its five steps at one instant, is `ClaimToken`. -/
theorem claimCall_alone (hmac : HMAC) (cfg : Config) (now : Time) (db : DB)
    (code packageID : String) :
    ClaimCall.steps hmac cfg now 5 db (ClaimCall.start code packageID) =
      ((OTCService.ClaimToken hmac cfg db now code packageID).2,
        { code := code, packageID := packageID,
          pc := .done (OTCService.ClaimToken hmac cfg db now code packageID).1 }) := by
  simp only [ClaimCall.steps, ClaimCall.start, OTCService.ClaimToken]
  cases hF : OTCRepository.FindByCode db code with
  | error e => simp [ClaimCall.step, hF]
  | ok otc =>
    by_cases hU : (otc.Claimed || decide (otc.ExpiresAt < now)) = true
    · simp [ClaimCall.step, hF, hU]
    · cases hA : AppRepository.FindByPackageID db packageID with
      | error e => simp [ClaimCall.step, hF, hU, hA]
      | ok app =>
        by_cases hB : app.ID ≠ otc.AppID
        · simp [ClaimCall.step, hF, hU, hA, hB]
        · rcases hM : OTCRepository.MarkClaimed db otc with ⟨res, db1⟩
          cases res with
          | error err => simp [ClaimCall.step, hF, hU, hA, hB, hM]
          | ok v => simp [ClaimCall.step, hF, hU, hA, hB, hM]

/-- C2, evaluated. Two calls `ClaimToken("deadbeef1234", "com.a")` on the
pending code of the scenario, their store calls taking turns (lookup, lookup,
check, check, resolve, resolve, mark, mark, mint, mint) at time five seconds:
both calls return the token pair minted for U, and neither returns
`ErrCodeExpired`. -/
theorem interleaved_claims_both_succeed :
    ((runSchedule toyHMAC scenarioConfig
        [(0, 5000000000), (1, 5000000000), (0, 5000000000), (1, 5000000000),
         (0, 5000000000), (1, 5000000000), (0, 5000000000), (1, 5000000000),
         (0, 5000000000), (1, 5000000000)]
        scenarioPending
        [ClaimCall.start "deadbeef1234" "com.a", ClaimCall.start "deadbeef1234" "com.a"]).2.map
      ClaimCall.result)
      = [some (AuthService.generateTokenPair toyHMAC scenarioConfig 5000000000 userU),
         some (AuthService.generateTokenPair toyHMAC scenarioConfig 5000000000 userU)] ∧
    ((runSchedule toyHMAC scenarioConfig
        [(0, 5000000000), (1, 5000000000), (0, 5000000000), (1, 5000000000),
         (0, 5000000000), (1, 5000000000), (0, 5000000000), (1, 5000000000),
         (0, 5000000000), (1, 5000000000)]
        scenarioPending
        [ClaimCall.start "deadbeef1234" "com.a", ClaimCall.start "deadbeef1234" "com.a"]).2.map
      ClaimCall.succeeded) = [true, true] := by
  constructor <;> rfl

/-- C3, evaluated. The update `MarkClaimed` carries no condition on the
stored row: on a row that is already claimed it reports success, and on a row
whose `expires_at` is long past it reports success and sets the flag. -/
theorem markClaimed_unconditional :
    OTCRepository.MarkClaimed scenarioClaimed scenarioCode = (.ok (), scenarioClaimed) ∧
      OTCRepository.MarkClaimed
          { scenarioDB with codes := [{ scenarioCode with ExpiresAt := -1 }] }
          { scenarioCode with ExpiresAt := -1 }
        = (.ok (),
          { scenarioDB with codes := [{ scenarioCode with ExpiresAt := -1, Claimed := true }] }) := by
  constructor <;> rfl

/-! ## Refresh -/

/-- Parsing a token that `generateTokenPair` signed, before the expiry claim the
token carries, returns its claims. -/
theorem parseToken_signed (hmac : HMAC) (cfg : Config) (t1 : Time) (claims : JWTClaims)
    (exp : Time) (hexp : claims.ExpiresAt = some exp) (hnbf : claims.NotBefore = none)
    (h : t1 < exp) :
    AuthService.parseToken hmac cfg t1 (SignedString hmac .HS256 claims cfg.JWTSecret)
      = .ok claims := by
  simp [AuthService.parseToken, SignedString, SigningMethod.isHMAC, validateClaims, hexp, hnbf, h]

/-- C11. Refresh round trip. For every user `u`, secret, keyed hash and
instant of issue, take the pair `generateTokenPair` mints, and any credential
store `db`. `RefreshToken` applied to the refresh token of the pair, before the
expiry claim of that token: when the key of `u` still resolves, it returns a
new pair whose access token, before its own expiry claim, passes
`ParseAccessToken` with the key of `u`, the email of the row found and kind
`access`; when the lookup of the key fails, it returns `ErrUserNotFound`.
Applied to the access token of the pair, before the expiry claim of that
token, it returns `ErrInvalidTokenType`, so no pair. -/
theorem refreshToken_round_trip (hmac : HMAC) (cfg : Config) (now : Time) (u : User) (db : DB) :
    ∃ pair, AuthService.generateTokenPair hmac cfg now u = .ok pair ∧
      (∀ (t1 : Time) (u1 : User), t1 < NewNumericDate (now + cfg.JWTRefreshExpiry) →
        UserRepository.FindByID db u.ID = .ok u1 →
        ∃ pair1, AuthService.RefreshToken hmac cfg db t1 pair.RefreshToken = .ok pair1 ∧
          AuthService.generateTokenPair hmac cfg t1 u1 = .ok pair1 ∧ u1.ID = u.ID ∧
          ∀ t3 : Time, t3 < NewNumericDate (t1 + cfg.JWTAccessExpiry) →
            ∃ claims, AuthService.ParseAccessToken hmac cfg t3 pair1.AccessToken = .ok claims ∧
              claims.UserID = u.ID ∧ claims.Email = u1.Email ∧ claims.Type_ = "access") ∧
      (∀ (t1 : Time) (e : DBError), t1 < NewNumericDate (now + cfg.JWTRefreshExpiry) →
        UserRepository.FindByID db u.ID = .error e →
        AuthService.RefreshToken hmac cfg db t1 pair.RefreshToken = .error .ErrUserNotFound) ∧
      (∀ t2 : Time, t2 < NewNumericDate (now + cfg.JWTAccessExpiry) →
        AuthService.RefreshToken hmac cfg db t2 pair.AccessToken
          = .error .ErrInvalidTokenType) := by
  refine ⟨_, rfl, ?_, ?_, ?_⟩
  · intro t1 u1 h1 hfind
    have hid : u1.ID = u.ID := by
      have := (gormFirst_ok hfind).2.2
      simp only [Bool.and_eq_true, decide_eq_true_eq] at this
      exact this.1
    obtain ⟨pair1, hp1⟩ := generateTokenPair_ok hmac cfg t1 u1
    refine ⟨pair1, ?_, hp1, hid, ?_⟩
    · simp only [AuthService.RefreshToken]
      rw [parseToken_signed hmac cfg t1 _ _ rfl rfl h1]
      simp [hfind, hp1]
    · intro t3 h3
      have hshape := Except.ok.inj hp1
      subst hshape
      simp only [AuthService.ParseAccessToken]
      rw [parseToken_signed hmac cfg t3 _ _ rfl rfl h3]
      simp [hid]
  · intro t1 e h1 hfind
    simp only [AuthService.RefreshToken]
    rw [parseToken_signed hmac cfg t1 _ _ rfl rfl h1]
    simp [hfind]
  · intro t2 h2
    simp only [AuthService.RefreshToken]
    rw [parseToken_signed hmac cfg t2 _ _ rfl rfl h2]
    simp

/-- Witness of C11: the pair of user U issued at time `0`; one minute later
the refresh token is presented while U resolves (scenario) and while U is
soft-deleted, and the access token is presented in its place. -/
theorem refreshToken_round_trip_witness :
    ∃ pair, AuthService.generateTokenPair toyHMAC scenarioConfig 0 userU = .ok pair ∧
      (∃ pair1,
        AuthService.RefreshToken toyHMAC scenarioConfig scenarioDB 60000000000 pair.RefreshToken
          = .ok pair1 ∧
        ∃ claims,
          AuthService.ParseAccessToken toyHMAC scenarioConfig 120000000000 pair1.AccessToken
            = .ok claims ∧
          claims.UserID = 1 ∧ claims.Email = "u@example.com" ∧ claims.Type_ = "access") ∧
      AuthService.RefreshToken toyHMAC scenarioConfig scenarioOwnerGone 60000000000
        pair.RefreshToken = .error .ErrUserNotFound ∧
      AuthService.RefreshToken toyHMAC scenarioConfig scenarioDB 60000000000 pair.AccessToken
        = .error .ErrInvalidTokenType := by
  obtain ⟨pair, hp, hok, _, hacc⟩ :=
    refreshToken_round_trip toyHMAC scenarioConfig 0 userU scenarioDB
  obtain ⟨pair3, hp3, _, hgone, _⟩ :=
    refreshToken_round_trip toyHMAC scenarioConfig 0 userU scenarioOwnerGone
  have e3 : pair = pair3 := by
    rw [hp] at hp3
    exact Except.ok.inj hp3
  subst e3
  obtain ⟨pair1, hr, _, _, hparse⟩ := hok 60000000000 userU (by decide) (by rfl)
  exact ⟨pair, hp, ⟨pair1, hr, hparse 120000000000 (by decide)⟩,
    hgone 60000000000 .ErrRecordNotFound (by decide) (by rfl), hacc 60000000000 (by decide)⟩

/-! ## Token failures -/

/-- The registered claims are valid exactly inside their window. -/
theorem validateClaims_iff (now : Time) (c : JWTClaims) :
    validateClaims now c = true ↔
      (∀ exp, c.ExpiresAt = some exp → now < exp) ∧
        (∀ nbf, c.NotBefore = some nbf → nbf ≤ now) := by
  unfold validateClaims
  cases c.ExpiresAt <;> cases c.NotBefore <;> simp

/-- Each way a token can fail `jwt.ParseWithClaims` ends as `ErrInvalidToken`. -/
theorem parseToken_failure (hmac : HMAC) (cfg : Config) (now : Time) (tok : TokenString)
    (h : (∃ raw, tok = .malformed raw) ∨
      ∃ m c s, tok = .jws m c s ∧
        (m.isHMAC = false ∨ s ≠ hmac cfg.JWTSecret (m, c) ∨
          (∃ exp, c.ExpiresAt = some exp ∧ exp ≤ now) ∨
          (∃ nbf, c.NotBefore = some nbf ∧ now < nbf))) :
    AuthService.parseToken hmac cfg now tok = .error .ErrInvalidToken := by
  rcases h with ⟨raw, rfl⟩ | ⟨m, c, s, rfl, hm | hs | ⟨exp, hexp, hle⟩ | ⟨nbf, hnbf, hlt⟩⟩
  · rfl
  · simp [AuthService.parseToken, hm]
  · simp only [AuthService.parseToken]
    split_ifs <;> rfl
  · have hv : ¬ validateClaims now c = true := by
      rw [validateClaims_iff]
      intro hcon
      exact absurd (hcon.1 exp hexp) (not_lt.mpr hle)
    simp only [AuthService.parseToken]
    split_ifs with h1 h2 h3 <;> first | rfl | (exfalso; apply hv; simpa using h3)
  · have hv : ¬ validateClaims now c = true := by
      rw [validateClaims_iff]
      intro hcon
      exact absurd (hcon.2 nbf hnbf) (not_le.mpr hlt)
    simp only [AuthService.parseToken]
    split_ifs with h1 h2 h3 <;> first | rfl | (exfalso; apply hv; simpa using h3)

/-- A token that passes `parseToken` is well formed, signed with an HMAC
method under the secret, and inside the window of its claims. -/
theorem parseToken_ok_inv {hmac : HMAC} {cfg : Config} {now : Time} {tok : TokenString}
    {claims : JWTClaims} (h : AuthService.parseToken hmac cfg now tok = .ok claims) :
    ∃ m s, tok = .jws m claims s ∧ m.isHMAC = true ∧ s = hmac cfg.JWTSecret (m, claims) ∧
      (∀ exp, claims.ExpiresAt = some exp → now < exp) ∧
      (∀ nbf, claims.NotBefore = some nbf → nbf ≤ now) := by
  cases tok with
  | malformed raw => simp [AuthService.parseToken] at h
  | jws m c s =>
    simp only [AuthService.parseToken] at h
    split_ifs at h with h1 h2 h3
    simp only [Except.ok.injEq] at h
    subst h
    have hv : validateClaims now c = true := by simpa using h3
    exact ⟨m, s, rfl, by simpa using h1, by simpa using h2, (validateClaims_iff now c).mp hv⟩

/-- The outcome of `parseToken` is the claims or `ErrInvalidToken`. -/
theorem parseToken_error {hmac : HMAC} {cfg : Config} {now : Time} {tok : TokenString}
    {e : Error} (h : AuthService.parseToken hmac cfg now tok = .error e) :
    e = .ErrInvalidToken := by
  cases tok with
  | malformed raw =>
    simp only [AuthService.parseToken, Except.error.injEq] at h
    exact h.symm
  | jws m c s =>
    simp only [AuthService.parseToken] at h
    split_ifs at h <;> simp only [Except.error.injEq] at h <;> exact h.symm

/-- C12. Token failure collapse. For every token string, whatever its kind
tag: when the structure does not parse, or the method is not HMAC, or the
signature is not the keyed hash under the secret, or the token is validly
built but its expiry claim is not after `now` (or its not-before claim is
after `now`), then `ParseAccessToken`, `VerifyToken` and `RefreshToken` all
return the one error `ErrInvalidToken`. And `ErrInvalidTokenType` comes back
only for a token that is well formed, signed with an HMAC method under the
secret and inside the window of its claims, and whose kind is not the one
asked for. -/
theorem token_failure_collapse (hmac : HMAC) (cfg : Config) (db : DB) (now : Time)
    (tok : TokenString) :
    (((∃ raw, tok = .malformed raw) ∨
        ∃ m c s, tok = .jws m c s ∧
          (m.isHMAC = false ∨ s ≠ hmac cfg.JWTSecret (m, c) ∨
            (∃ exp, c.ExpiresAt = some exp ∧ exp ≤ now) ∨
            (∃ nbf, c.NotBefore = some nbf ∧ now < nbf))) →
      AuthService.ParseAccessToken hmac cfg now tok = .error .ErrInvalidToken ∧
        AuthService.VerifyToken hmac cfg db now tok = .error .ErrInvalidToken ∧
        AuthService.RefreshToken hmac cfg db now tok = .error .ErrInvalidToken) ∧
      (AuthService.ParseAccessToken hmac cfg now tok = .error .ErrInvalidTokenType →
        ∃ m c s, tok = .jws m c s ∧ m.isHMAC = true ∧ s = hmac cfg.JWTSecret (m, c) ∧
          (∀ exp, c.ExpiresAt = some exp → now < exp) ∧ c.Type_ ≠ "access") ∧
      (AuthService.RefreshToken hmac cfg db now tok = .error .ErrInvalidTokenType →
        ∃ m c s, tok = .jws m c s ∧ m.isHMAC = true ∧ s = hmac cfg.JWTSecret (m, c) ∧
          (∀ exp, c.ExpiresAt = some exp → now < exp) ∧ c.Type_ ≠ "refresh") := by
  refine ⟨?_, ?_, ?_⟩
  · intro hfail
    have hp := parseToken_failure hmac cfg now tok hfail
    simp [AuthService.ParseAccessToken, AuthService.VerifyToken, AuthService.RefreshToken, hp]
  · intro h
    cases hp : AuthService.parseToken hmac cfg now tok with
    | error e =>
      have he := parseToken_error hp
      subst he
      simp [AuthService.ParseAccessToken, hp] at h
    | ok claims =>
      obtain ⟨m, s, htok, hm, hs, hexp, _⟩ := parseToken_ok_inv hp
      refine ⟨m, claims, s, htok, hm, hs, hexp, ?_⟩
      intro hty
      simp [AuthService.ParseAccessToken, hp, hty] at h
  · intro h
    cases hp : AuthService.parseToken hmac cfg now tok with
    | error e =>
      have he := parseToken_error hp
      subst he
      simp [AuthService.RefreshToken, hp] at h
    | ok claims =>
      obtain ⟨m, s, htok, hm, hs, hexp, _⟩ := parseToken_ok_inv hp
      refine ⟨m, claims, s, htok, hm, hs, hexp, ?_⟩
      intro hty
      simp only [AuthService.RefreshToken, hp, hty, ne_eq, not_true_eq_false, if_false] at h
      cases hu : UserRepository.FindByID db claims.UserID with
      | error e => simp [hu] at h
      | ok user => simp [hu, AuthService.generateTokenPair] at h

/-- Witness of C12: at time five seconds, a string that is no token, a
refresh token of user U signed under the secret whose expiry claim is one
second, and an access token with method `none`. -/
theorem token_failure_collapse_witness :
    AuthService.ParseAccessToken toyHMAC scenarioConfig 5000000000 (.malformed "garbage")
        = .error .ErrInvalidToken ∧
      AuthService.RefreshToken toyHMAC scenarioConfig scenarioDB 5000000000
          (SignedString toyHMAC .HS256 staleRefreshClaims scenarioConfig.JWTSecret)
        = .error .ErrInvalidToken ∧
      AuthService.ParseAccessToken toyHMAC scenarioConfig 5000000000
          (.jws (.other "none") { staleRefreshClaims with Type_ := "access" } 0)
        = .error .ErrInvalidToken :=
  ⟨((token_failure_collapse toyHMAC scenarioConfig scenarioDB 5000000000
      (.malformed "garbage")).1 (Or.inl ⟨"garbage", rfl⟩)).1,
   ((token_failure_collapse toyHMAC scenarioConfig scenarioDB 5000000000
      (SignedString toyHMAC .HS256 staleRefreshClaims scenarioConfig.JWTSecret)).1
      (Or.inr ⟨_, _, _, rfl, Or.inr (Or.inr (Or.inl ⟨1000000000, rfl, by decide⟩))⟩)).2.2,
   ((token_failure_collapse toyHMAC scenarioConfig scenarioDB 5000000000
      (.jws (.other "none") { staleRefreshClaims with Type_ := "access" } 0)).1
      (Or.inr ⟨_, _, _, rfl, Or.inl rfl⟩)).1⟩

/-! ## What the error of a claim tells -/

/-- An update that fails leaves the database as it was. -/
theorem markClaimed_error_inv {db db1 : DB} {otc : OneTimeCode} {e : DBError}
    (h : OTCRepository.MarkClaimed db otc = (.error e, db1)) : db1 = db := by
  unfold OTCRepository.MarkClaimed at h
  cases hf : db.fault .OTCMarkClaimed with
  | some e1 =>
    rw [hf] at h
    simp only [Prod.mk.injEq] at h
    exact h.2.symm
  | none =>
    rw [hf] at h
    by_cases hid : otc.ID = uuidNil
    · simp only [hid, if_true, Prod.mk.injEq] at h
      exact h.2.symm
    · simp [hid] at h

/-- A claim of a code that is pending and not past its expiry never ends in
`ErrCodeExpired`. -/
theorem claimToken_usable_not_expired_error {hmac : HMAC} {cfg : Config} {db : DB} {now : Time}
    {code packageID : String} {otc : OneTimeCode}
    (hFind : OTCRepository.FindByCode db code = .ok otc)
    (hc : otc.Claimed = false) (he : ¬ otc.ExpiresAt < now) :
    (OTCService.ClaimToken hmac cfg db now code packageID).1 ≠ .error .ErrCodeExpired := by
  rw [claimToken_of_usable hFind hc he]
  cases hA : AppRepository.FindByPackageID db packageID with
  | error e => simp
  | ok app =>
    by_cases hB : app.ID ≠ otc.AppID
    · simp [hB]
    · simp only [hB, if_false]
      rcases hM : OTCRepository.MarkClaimed db otc with ⟨res, db1⟩
      cases res with
      | error err => simp
      | ok v =>
        simp only [AuthService.GenerateTokenPairForUser]
        cases hU : UserRepository.FindByID db1 otc.UserID with
        | error e => simp
        | ok u => simp [AuthService.generateTokenPair]

/-- C13, the claim as written fails: the scenario with and without the
pending code `deadbeef1234`, claimed with the package id of app B and with an
unknown package id. With the code valid the call fails with `ErrAppMismatch`
or `ErrAppNotFound`, without it with `ErrCodeExpired`. -/
theorem claimToken_error_tells_valid_code :
    scenarioPending = { scenarioDB with codes := [scenarioCode] } ∧
      scenarioCode.Claimed = false ∧ ¬ scenarioCode.ExpiresAt < 5000000000 ∧
      (OTCService.ClaimToken toyHMAC scenarioConfig scenarioPending 5000000000
          "deadbeef1234" "com.b").1 = .error .ErrAppMismatch ∧
      (OTCService.ClaimToken toyHMAC scenarioConfig scenarioDB 5000000000
          "deadbeef1234" "com.b").1 = .error .ErrCodeExpired ∧
      (OTCService.ClaimToken toyHMAC scenarioConfig scenarioPending 5000000000
          "deadbeef1234" "com.none").1 = .error .ErrAppNotFound ∧
      (OTCService.ClaimToken toyHMAC scenarioConfig scenarioDB 5000000000
          "deadbeef1234" "com.none").1 = .error .ErrCodeExpired :=
  ⟨by rfl, by rfl, by decide, by rfl, by rfl, by rfl, by rfl⟩

/-- C13, amended. For every package id and any two databases in each of which
code value `c` cannot be claimed at its time (no row carries it, or the row
found is claimed, or the row found is past its expiry, in any combination),
`ClaimToken(c, packageId)` returns the same error in both runs,
`ErrCodeExpired`, and changes neither database: the error does not tell the
three apart. Against a database in which `c` is pending and not past its
expiry the call never returns `ErrCodeExpired`. -/
theorem claimToken_error_indistinct (hmac : HMAC) (cfg : Config) (db1 db2 : DB)
    (now1 now2 : Time) (c packageID : String)
    (h1 : (∀ r ∈ db1.codes, r.Code ≠ c) ∨
      ∃ otc, OTCRepository.FindByCode db1 c = .ok otc ∧
        (otc.Claimed = true ∨ otc.ExpiresAt < now1))
    (h2 : (∀ r ∈ db2.codes, r.Code ≠ c) ∨
      ∃ otc, OTCRepository.FindByCode db2 c = .ok otc ∧
        (otc.Claimed = true ∨ otc.ExpiresAt < now2)) :
    (OTCService.ClaimToken hmac cfg db1 now1 c packageID).1
        = (OTCService.ClaimToken hmac cfg db2 now2 c packageID).1 ∧
      OTCService.ClaimToken hmac cfg db1 now1 c packageID = (.error .ErrCodeExpired, db1) ∧
      OTCService.ClaimToken hmac cfg db2 now2 c packageID = (.error .ErrCodeExpired, db2) ∧
      ∀ (db : DB) (now : Time) (otc : OneTimeCode), OTCRepository.FindByCode db c = .ok otc →
        otc.Claimed = false → ¬ otc.ExpiresAt < now →
        (OTCService.ClaimToken hmac cfg db now c packageID).1 ≠ .error .ErrCodeExpired := by
  have key : ∀ (db : DB) (now : Time),
      ((∀ r ∈ db.codes, r.Code ≠ c) ∨
        ∃ otc, OTCRepository.FindByCode db c = .ok otc ∧
          (otc.Claimed = true ∨ otc.ExpiresAt < now)) →
      OTCService.ClaimToken hmac cfg db now c packageID = (.error .ErrCodeExpired, db) := by
    intro db now h
    rcases h with habs | ⟨otc, hf, hu⟩
    · obtain ⟨e, he⟩ := gormFirst_no_match (db.fault .OTCFindByCode) OneTimeCode.ID db.codes
        (fun r => decide (r.Code = c)) (by
          intro r hr
          simpa using habs r hr)
      exact claimToken_of_find_error he
    · exact claimToken_of_unusable hf hu
  refine ⟨?_, key db1 now1 h1, key db2 now2 h2, ?_⟩
  · rw [key db1 now1 h1, key db2 now2 h2]
  · intro db now otc hf hc he
    exact claimToken_usable_not_expired_error hf hc he

/-- Witness of C13, amended: the code absent (scenario before the exchange)
against the code claimed, same package id. -/
theorem claimToken_error_indistinct_witness :
    (OTCService.ClaimToken toyHMAC scenarioConfig scenarioDB 5000000000
        "deadbeef1234" "com.b").1
      = (OTCService.ClaimToken toyHMAC scenarioConfig scenarioClaimed 7000000000
        "deadbeef1234" "com.b").1 :=
  (claimToken_error_indistinct toyHMAC scenarioConfig scenarioDB scenarioClaimed 5000000000
    7000000000 "deadbeef1234" "com.b" (Or.inl (by decide))
    (Or.inr ⟨{ scenarioCode with Claimed := true }, by rfl, Or.inl rfl⟩)).1

/-! ## Failures of the store -/

/-- C14, the claim as written fails: with the lookup query failing for a
reason other than a missing record (`ErrUnavailable`), `ClaimToken` returns
`ErrCodeExpired`, `ExchangeCode` returns `ErrAppNotFound` and `Login` returns
`ErrInvalidCredentials`; none returns the store failure. -/
theorem lookup_failure_converted :
    OTCRepository.FindByCode
        { scenarioPending with faults := [(.OTCFindByCode, .ErrUnavailable)] } "deadbeef1234"
        = .error .ErrUnavailable ∧
      (OTCService.ClaimToken toyHMAC scenarioConfig
          { scenarioPending with faults := [(.OTCFindByCode, .ErrUnavailable)] } 5000000000
          "deadbeef1234" "com.a").1 = .error .ErrCodeExpired ∧
      AppRepository.FindByID { scenarioDB with faults := [(.AppFindByID, .ErrUnavailable)] } 10
        = .error .ErrUnavailable ∧
      (OTCService.ExchangeCode scenarioConfig
          { scenarioDB with faults := [(.AppFindByID, .ErrUnavailable)] } 0
          (some scenarioBytes) 100 1 10).1 = .error .ErrAppNotFound ∧
      UserRepository.FindByEmail
          { scenarioDB with faults := [(.UserFindByEmail, .ErrUnavailable)] } "u@example.com"
        = .error .ErrUnavailable ∧
      AuthService.Login (fun _ _ => true) toyHMAC scenarioConfig
          { scenarioDB with faults := [(.UserFindByEmail, .ErrUnavailable)] } 0
          "u@example.com" "secret1" = .error .ErrInvalidCredentials :=
  ⟨by rfl, by rfl, by rfl, by rfl, by rfl, by rfl⟩

/-- C14, amended. In `ExchangeCode` and `ClaimToken` a failure of the
permission query, of the insert of the code row or of the mark-claimed update
is returned to the caller as it is, a store error and no domain error. A
failure of a lookup, whatever it is, is answered with the domain error of the
lookup: `ErrInvalidCredentials` for the user by email in `Login`,
`ErrAppNotFound` for the app by key in `ExchangeCode`, `ErrCodeExpired` for the
code and `ErrAppNotFound` for the app by package id in `ClaimToken`,
`ErrUserNotFound` for the owner when the pair is minted. -/
theorem store_failure_handling (hmac : HMAC) (cfg : Config) (db : DB) (now : Time)
    (e : DBError) :
    (∀ randRead genID userID appID a, AppRepository.FindByID db appID = .ok a →
        AppRepository.HasPermission db userID appID = .error e →
        OTCService.ExchangeCode cfg db now randRead genID userID appID
          = (.error (.store e), db)) ∧
      (∀ codeBytes genID userID appID a db1, AppRepository.FindByID db appID = .ok a →
        AppRepository.HasPermission db userID appID = .ok true →
        OTCRepository.Create db genID ⟨uuidNil, userID, appID, hexEncodeToString codeBytes,
          now + cfg.OTCExpiry, false⟩ = (.error e, db1) →
        OTCService.ExchangeCode cfg db now (some codeBytes) genID userID appID
          = (.error (.store e), db1)) ∧
      (∀ code packageID otc app db1, OTCRepository.FindByCode db code = .ok otc →
        otc.Claimed = false → ¬ otc.ExpiresAt < now →
        AppRepository.FindByPackageID db packageID = .ok app → app.ID = otc.AppID →
        OTCRepository.MarkClaimed db otc = (.error e, db1) →
        OTCService.ClaimToken hmac cfg db now code packageID = (.error (.store e), db1)) ∧
      (∀ bcrypt email password, UserRepository.FindByEmail db email = .error e →
        AuthService.Login bcrypt hmac cfg db now email password = .error .ErrInvalidCredentials) ∧
      (∀ randRead genID userID appID, AppRepository.FindByID db appID = .error e →
        OTCService.ExchangeCode cfg db now randRead genID userID appID
          = (.error .ErrAppNotFound, db)) ∧
      (∀ code packageID, OTCRepository.FindByCode db code = .error e →
        OTCService.ClaimToken hmac cfg db now code packageID = (.error .ErrCodeExpired, db)) ∧
      (∀ code packageID otc, OTCRepository.FindByCode db code = .ok otc →
        otc.Claimed = false → ¬ otc.ExpiresAt < now →
        AppRepository.FindByPackageID db packageID = .error e →
        OTCService.ClaimToken hmac cfg db now code packageID = (.error .ErrAppNotFound, db)) ∧
      (∀ userID, UserRepository.FindByID db userID = .error e →
        AuthService.GenerateTokenPairForUser hmac cfg db now userID
          = .error .ErrUserNotFound) := by
  refine ⟨?_, ?_, ?_, ?_, ?_, ?_, ?_, ?_⟩
  · intro randRead genID userID appID a hA hP
    simp [OTCService.ExchangeCode, hA, hP]
  · intro codeBytes genID userID appID a db1 hA hP hC
    simp [OTCService.ExchangeCode, hA, hP, hC]
  · intro code packageID otc app db1 hF hc he hA hB hM
    rw [claimToken_of_usable hF hc he]
    simp [hA, hB, hM]
  · intro bcrypt email password hF
    simp [AuthService.Login, hF]
  · intro randRead genID userID appID hA
    simp [OTCService.ExchangeCode, hA]
  · intro code packageID hF
    exact claimToken_of_find_error hF
  · intro code packageID otc hF hc he hA
    rw [claimToken_of_usable hF hc he]
    simp [hA]
  · intro userID hU
    simp [AuthService.GenerateTokenPairForUser, hU]

/-- Witness of C14, amended: in the scenario, the permission query failing
during an exchange, the update failing during a claim, and the code lookup
failing during a claim. -/
theorem store_failure_handling_witness :
    OTCService.ExchangeCode scenarioConfig
        { scenarioDB with faults := [(.AppHasPermission, .ErrUnavailable)] } 0
        (some scenarioBytes) 100 1 10
      = (.error (.store .ErrUnavailable),
          { scenarioDB with faults := [(.AppHasPermission, .ErrUnavailable)] }) ∧
    OTCService.ClaimToken toyHMAC scenarioConfig
        { scenarioPending with faults := [(.OTCMarkClaimed, .ErrUnavailable)] } 5000000000
        "deadbeef1234" "com.a"
      = (.error (.store .ErrUnavailable),
          { scenarioPending with faults := [(.OTCMarkClaimed, .ErrUnavailable)] }) ∧
    OTCService.ClaimToken toyHMAC scenarioConfig
        { scenarioPending with faults := [(.OTCFindByCode, .ErrUnavailable)] } 5000000000
        "deadbeef1234" "com.a"
      = (.error .ErrCodeExpired,
          { scenarioPending with faults := [(.OTCFindByCode, .ErrUnavailable)] }) :=
  ⟨(store_failure_handling toyHMAC scenarioConfig
      { scenarioDB with faults := [(.AppHasPermission, .ErrUnavailable)] } 0
      .ErrUnavailable).1 (some scenarioBytes) 100 1 10 appA (by rfl) (by rfl),
   (store_failure_handling toyHMAC scenarioConfig
      { scenarioPending with faults := [(.OTCMarkClaimed, .ErrUnavailable)] } 5000000000
      .ErrUnavailable).2.2.1 "deadbeef1234" "com.a" scenarioCode appA _ (by rfl) (by rfl)
      (by decide) (by rfl) (by rfl) (by rfl),
   (store_failure_handling toyHMAC scenarioConfig
      { scenarioPending with faults := [(.OTCFindByCode, .ErrUnavailable)] } 5000000000
      .ErrUnavailable).2.2.2.2.2.1 "deadbeef1234" "com.a" (by rfl)⟩

/-! ## Mark, then mint -/

/-- An update that reports success reached the data with a keyed record and
marked the rows of that key. -/
theorem markClaimed_ok_inv {db db1 : DB} {otc : OneTimeCode} {v : Unit}
    (h : OTCRepository.MarkClaimed db otc = (.ok v, db1)) :
    db.fault .OTCMarkClaimed = none ∧ otc.ID ≠ uuidNil ∧
      db1 = { db with codes := db.codes.map (fun r =>
        if r.ID = otc.ID then { r with Claimed := true } else r) } := by
  unfold OTCRepository.MarkClaimed at h
  cases hf : db.fault .OTCMarkClaimed with
  | some e1 => rw [hf] at h; simp at h
  | none =>
    rw [hf] at h
    by_cases hid : otc.ID = uuidNil
    · simp [hid] at h
    · simp only [hid, if_false, Prod.mk.injEq, true_and] at h
      exact ⟨rfl, hid, h.symm⟩

/-- C15, the claim as written fails: the pending code of the scenario, its
owner soft-deleted since the exchange, claimed with the package id of its app.
The call returns `ErrUserNotFound`, and the row is claimed afterwards. -/
theorem claimToken_marks_before_mint :
    OTCRepository.FindByCode scenarioOwnerGone "deadbeef1234" = .ok scenarioCode ∧
      scenarioCode.Claimed = false ∧
      (OTCService.ClaimToken toyHMAC scenarioConfig scenarioOwnerGone 5000000000
          "deadbeef1234" "com.a").1 = .error .ErrUserNotFound ∧
      (OTCService.ClaimToken toyHMAC scenarioConfig scenarioOwnerGone 5000000000
          "deadbeef1234" "com.a").2.codes = [{ scenarioCode with Claimed := true }] ∧
      (OTCService.ClaimToken toyHMAC scenarioConfig scenarioOwnerGone 5000000000
          "deadbeef1234" "com.a").2 ≠ scenarioOwnerGone :=
  ⟨by rfl, by rfl, by rfl, by rfl, by decide⟩

/-- C15, amended. For every database, code and package id: when `ClaimToken`
returns a token pair, the row found for the code was pending, the database
after the call is the one before with the rows of that key marked claimed, and
the pair is the one `generateTokenPair` mints for the owner of the code; when
`ClaimToken` returns an error other than `ErrUserNotFound`, the database is
exactly as it was. -/
theorem claimToken_atomicity (hmac : HMAC) (cfg : Config) (db : DB) (now : Time)
    (code packageID : String) :
    (∀ pair db1, OTCService.ClaimToken hmac cfg db now code packageID = (.ok pair, db1) →
        ∃ otc user, OTCRepository.FindByCode db code = .ok otc ∧ otc ∈ db.codes ∧
          otc.Claimed = false ∧
          db1 = { db with codes := db.codes.map (fun r =>
            if r.ID = otc.ID then { r with Claimed := true } else r) } ∧
          (∀ r ∈ db1.codes, r.ID = otc.ID → r.Claimed = true) ∧
          UserRepository.FindByID db otc.UserID = .ok user ∧ user.ID = otc.UserID ∧
          AuthService.generateTokenPair hmac cfg now user = .ok pair) ∧
      (∀ e db1, OTCService.ClaimToken hmac cfg db now code packageID = (.error e, db1) →
        e ≠ .ErrUserNotFound → db1 = db) := by
  constructor
  · intro pair db1 h
    cases hF : OTCRepository.FindByCode db code with
    | error e0 => rw [claimToken_of_find_error hF] at h; simp at h
    | ok otc =>
      by_cases hu : otc.Claimed = true ∨ otc.ExpiresAt < now
      · rw [claimToken_of_unusable hF hu] at h; simp at h
      · push_neg at hu
        have hc : otc.Claimed = false := by simpa using hu.1
        have he : ¬ otc.ExpiresAt < now := not_lt.mpr hu.2
        rw [claimToken_of_usable hF hc he] at h
        cases hA : AppRepository.FindByPackageID db packageID with
        | error e0 => rw [hA] at h; simp at h
        | ok app =>
          rw [hA] at h
          by_cases hB : app.ID ≠ otc.AppID
          · simp [hB] at h
          · simp only [hB, if_false] at h
            rcases hM : OTCRepository.MarkClaimed db otc with ⟨res, db2⟩
            rw [hM] at h
            cases res with
            | error err => simp at h
            | ok v =>
              simp only [Prod.mk.injEq] at h
              obtain ⟨hgen, hdb⟩ := h
              subst hdb
              obtain ⟨_, _, hdb2⟩ := markClaimed_ok_inv hM
              have hother := markClaimed_other_tables db otc
              rw [hM] at hother
              simp only [AuthService.GenerateTokenPairForUser] at hgen
              rw [user_findByID_congr hother.1 hother.2.2.2] at hgen
              cases hU : UserRepository.FindByID db otc.UserID with
              | error e0 => rw [hU] at hgen; simp at hgen
              | ok user =>
                rw [hU] at hgen
                have hid : user.ID = otc.UserID := by
                  have := (gormFirst_ok hU).2.2
                  simp only [Bool.and_eq_true, decide_eq_true_eq] at this
                  exact this.1
                refine ⟨otc, user, rfl, (gormFirst_ok hF).2.1, hc, hdb2, ?_, hU, hid, hgen⟩
                intro r hr hk
                rw [hdb2] at hr
                simp only [List.mem_map] at hr
                obtain ⟨r0, _, heq⟩ := hr
                by_cases hk0 : r0.ID = otc.ID
                · rw [if_pos hk0] at heq
                  rw [← heq]
                · rw [if_neg hk0] at heq
                  rw [← heq] at hk
                  exact absurd hk hk0
  · intro e db1 h hne
    cases hF : OTCRepository.FindByCode db code with
    | error e0 =>
      rw [claimToken_of_find_error hF] at h
      simp only [Prod.mk.injEq] at h
      exact h.2.symm
    | ok otc =>
      by_cases hu : otc.Claimed = true ∨ otc.ExpiresAt < now
      · rw [claimToken_of_unusable hF hu] at h
        simp only [Prod.mk.injEq] at h
        exact h.2.symm
      · push_neg at hu
        have hc : otc.Claimed = false := by simpa using hu.1
        have he : ¬ otc.ExpiresAt < now := not_lt.mpr hu.2
        rw [claimToken_of_usable hF hc he] at h
        cases hA : AppRepository.FindByPackageID db packageID with
        | error e0 =>
          rw [hA] at h
          simp only [Prod.mk.injEq] at h
          exact h.2.symm
        | ok app =>
          rw [hA] at h
          by_cases hB : app.ID ≠ otc.AppID
          · simp only [if_pos hB, Prod.mk.injEq] at h
            exact h.2.symm
          · simp only [hB, if_false] at h
            rcases hM : OTCRepository.MarkClaimed db otc with ⟨res, db2⟩
            rw [hM] at h
            cases res with
            | error err =>
              simp only [Prod.mk.injEq] at h
              rw [← h.2]
              exact markClaimed_error_inv hM
            | ok v =>
              exfalso
              simp only [Prod.mk.injEq] at h
              obtain ⟨hgen, _⟩ := h
              simp only [AuthService.GenerateTokenPairForUser] at hgen
              cases hU : UserRepository.FindByID db2 otc.UserID with
              | error e0 =>
                rw [hU] at hgen
                simp only [Except.error.injEq] at hgen
                exact hne hgen.symm
              | ok user =>
                rw [hU] at hgen
                simp [AuthService.generateTokenPair] at hgen

/-- Witness of C15, amended: the claim of the scenario that succeeds, and the
claim with the package id of app B that fails. -/
theorem claimToken_atomicity_witness :
    (∃ otc user, OTCRepository.FindByCode scenarioPending "deadbeef1234" = .ok otc ∧
        otc ∈ scenarioPending.codes ∧ otc.Claimed = false ∧
        scenarioClaimed = { scenarioPending with codes := scenarioPending.codes.map (fun r =>
          if r.ID = otc.ID then { r with Claimed := true } else r) } ∧
        (∀ r ∈ scenarioClaimed.codes, r.ID = otc.ID → r.Claimed = true) ∧
        UserRepository.FindByID scenarioPending otc.UserID = .ok user ∧ user.ID = otc.UserID ∧
        AuthService.generateTokenPair toyHMAC scenarioConfig 5000000000 user
          = AuthService.generateTokenPair toyHMAC scenarioConfig 5000000000 userU) ∧
      (OTCService.ClaimToken toyHMAC scenarioConfig scenarioPending 5000000000 "deadbeef1234"
        "com.b").2 = scenarioPending :=
  ⟨(claimToken_atomicity toyHMAC scenarioConfig scenarioPending 5000000000 "deadbeef1234"
      "com.a").1 _ scenarioClaimed (by rfl),
   (claimToken_atomicity toyHMAC scenarioConfig scenarioPending 5000000000 "deadbeef1234"
      "com.b").2 .ErrAppMismatch _ (by rfl) (by decide)⟩

end MasterSlave
